import Mathlib

/-!
Verification of the minimalSpreadsheet backend core (backend/routes/index.js)
against its natural-language specification.

The relational tables used by the routes are embedded as Lean lists of
records, and each route's transaction is embedded as a pure function (or,
for the one query whose result order is underdetermined, a relation) on the
resulting state type.  Machine integers become Nat/Int, SQL NULL becomes
Option, and fallible routes return Except.
-/

namespace Spreadsheet

/-- The five column types accepted by the backend
(validTypes in POST /api/columns and PATCH /api/cell). -/
inductive ColumnType
  | text
  | number
  | datetime
  | single_select
  | multi_select
deriving DecidableEq, Repr

/-- A row of the columns_meta table. -/
structure ColumnMeta where
  id : Nat
  column_name : String
  column_type : ColumnType
  display_order : Nat
  is_active : Bool
deriving DecidableEq, Repr

/-- A row of the dropdown_options table. -/
structure OptionRow where
  id : Nat
  column_id : Nat
  option_value : String
  display_order : Nat
  is_active : Bool
deriving DecidableEq, Repr

/-- A row of the data_rows table.  row_number is a Nat: the only decrement
the routes perform is guarded by row_number > p with p a Nat, so SQL
integer arithmetic and Nat arithmetic agree on every reachable update. -/
structure DataRow where
  id : Nat
  row_number : Nat
  is_active : Bool
deriving DecidableEq, Repr

/-- JavaScript numbers as the PATCH /api/cell validation observes them:
a finite value (modelled as a rational), NaN, or a signed infinity.
Floating-point rounding is irrelevant to every claim, so finite values
are kept exact. -/
inductive JSNum
  | finite (q : ℚ)
  | nan
  | posInf
  | negInf
deriving DecidableEq, Repr

/-- isNaN on an actual JavaScript number. -/
def JSNum.isNaNb : JSNum → Bool
  | .nan => true
  | _ => false

/-- A row of the cell_values table: one nullable slot per scalar type,
exactly as the table is written by PATCH /api/cell.  single_select_value
is TEXT in the database (the summary query compares it with opt.id::text),
so the option id arrives stored as its decimal string. -/
structure CellRow where
  row_id : Nat
  column_id : Nat
  text_value : Option String
  number_value : Option JSNum
  datetime_value : Option Int
  single_select_value : Option String
deriving DecidableEq, Repr

/-- A row of the multi_select_values table. -/
structure MSRow where
  row_id : Nat
  column_id : Nat
  option_id : Nat
deriving DecidableEq, Repr

/-- The durable state the routes read and write.  The advisory row_summary
counter table is not modelled: no claim mentions it and the spec treats
such counters as ignorable (spec section 7). -/
structure DBState where
  columns : List ColumnMeta
  options : List OptionRow
  rows : List DataRow
  cells : List CellRow
  multi : List MSRow
deriving DecidableEq, Repr

/-! ## Row registry operations (POST /api/rows, DELETE /api/rows/:id) -/

/-- The id the database's SERIAL / UUID generator hands to a fresh row:
modelled as one more than the largest id in use, which is fresh. -/
def freshRowId (s : DBState) : Nat :=
  (s.rows.map (·.id)).foldr (fun a b => max a b) 0 + 1

/-- POST /api/rows: UPDATE data_rows SET row_number = row_number + 1
(no WHERE clause, so inactive rows are incremented too), then INSERT a new
active row with row_number 1. -/
def insertRowAtTop (s : DBState) : DBState :=
  { s with rows :=
      s.rows.map (fun r => { r with row_number := r.row_number + 1 })
        ++ [⟨freshRowId s, 1, true⟩] }

/-- DELETE /api/rows/:id: none when no active row has the id (the route
answers 404 and rolls back).  Otherwise: delete the row's cell_values and
multi_select_values, set is_active = FALSE for the id, then decrement
row_number for every still-active row whose row_number exceeds the deleted
row's. -/
def deleteRow (s : DBState) (rid : Nat) : Option DBState :=
  match s.rows.find? (fun r => r.id == rid && r.is_active) with
  | none => none
  | some r0 =>
    some { s with
      cells := s.cells.filter (fun cv => !(cv.row_id == rid)),
      multi := s.multi.filter (fun m => !(m.row_id == rid)),
      rows :=
        (s.rows.map (fun r =>
            if r.id == rid then { r with is_active := false } else r)).map
          (fun r =>
            if r.is_active && r0.row_number < r.row_number then
              { r with row_number := r.row_number - 1 }
            else r) }

/-- A row-structural request: the two operations claim C1 quantifies over. -/
inductive RowOp
  | insert
  | delete (rid : Nat)
deriving DecidableEq, Repr

/-- One row operation as the HTTP layer applies it; a failed delete commits
nothing. -/
def applyRowOp (s : DBState) : RowOp → DBState
  | .insert => insertRowAtTop s
  | .delete rid => (deleteRow s rid).getD s

/-- A whole sequence of row operations. -/
def applyRowOps (ops : List RowOp) (s : DBState) : DBState :=
  ops.foldl applyRowOp s

/-- The row_number values of the active rows, in table order. -/
def activeNums (s : DBState) : List Nat :=
  (s.rows.filter (·.is_active)).map (·.row_number)

/-- The positions 1..n, the shape the spec's density invariant demands. -/
def posRange (n : Nat) : List Nat := List.range' 1 n

/-- Density: the active rows' positions are exactly 1..N for N the active
count — no gaps, no duplicates. -/
def DensePositions (s : DBState) : Prop :=
  (activeNums s).Perm (posRange (activeNums s).length)

/-- The state well-formedness the database schema enforces and claim C1
starts from: primary-key uniqueness of row ids plus density. -/
def RowInv (s : DBState) : Prop :=
  (s.rows.map (·.id)).Nodup ∧ DensePositions s

instance : DecidablePred DensePositions := fun s => by
  unfold DensePositions; infer_instance

instance : DecidablePred RowInv := fun s => by
  unfold RowInv; infer_instance

/-! ## Cell store (PATCH /api/cell, GET /api/rows) -/

/-- The untyped JSON payload shapes a cell write can carry.  Multi-select
payloads carry the option ids; the route's other typeof checks are
represented by the constructor shapes. -/
inductive JSValue
  | str (t : String)
  | num (n : JSNum)
  | arr (ids : List Nat)
  | nullv
deriving DecidableEq, Repr

/-- The discriminated errors PATCH /api/cell answers with (each is an HTTP
400 plus a message in the source). -/
inductive WriteErr
  | missingField
  | rowNotFound
  | columnNotFound
  | typeMismatch
  | badValue
  | badOption
deriving DecidableEq, Repr

/-- Does the payload number equal the integer option id k?  SQL id = $2
compares the numeric payload with the integer key, so NaN, infinities and
non-integral numbers match nothing. -/
def jsEqNat (n : JSNum) (k : Nat) : Bool :=
  n == .finite (k : ℚ)

/-- The validated content the route inserts after all checks pass. -/
inductive ValidatedWrite
  | text (t : String)
  | number (n : JSNum)
  | datetime (inst : Int)
  | singleSelect (optId : Nat)
  | multiSelect (ids : List Nat)
deriving DecidableEq, Repr

/-- The validation phase of PATCH /api/cell, check for check in source
order: required fields, row active, column active, data_type equals the
column type, then the per-type checks.  Date.parse is an external
JavaScript collaborator and is passed in as dateParse. -/
def validateWrite (dateParse : String → Option Int) (s : DBState)
    (row_id column_id : Nat) (dt : ColumnType) (v : JSValue) :
    Except WriteErr ValidatedWrite :=
  if row_id == 0 || column_id == 0 then .error .missingField
  else if !(s.rows.any (fun r => r.id == row_id && r.is_active)) then
    .error .rowNotFound
  else
    match s.columns.find? (fun c => c.id == column_id && c.is_active) with
    | none => .error .columnNotFound
    | some col =>
      if dt != col.column_type then .error .typeMismatch
      else
        match dt, v with
        | .text, .str t => .ok (.text t)
        | .text, _ => .error .badValue
        | .number, .num n =>
          if n.isNaNb then .error .badValue else .ok (.number n)
        | .number, _ => .error .badValue
        | .datetime, .str t =>
          match dateParse t with
          | some inst => .ok (.datetime inst)
          | none => .error .badValue
        | .datetime, _ => .error .badValue
        | .single_select, .num n =>
          match s.options.find?
              (fun o => o.column_id == column_id && o.is_active
                          && jsEqNat n o.id) with
          | some o => .ok (.singleSelect o.id)
          | none => .error .badOption
        | .single_select, _ => .error .badValue
        | .multi_select, .arr ids =>
          if (s.options.filter
                (fun o => o.column_id == column_id && o.is_active
                            && ids.contains o.id)).length == ids.length then
            .ok (.multiSelect ids)
          else .error .badOption
        | .multi_select, _ => .error .badValue

/-- The mutation phase of PATCH /api/cell: delete any cell_values row and
any multi_select_values rows for the (row, column) pair, then insert the
new value into the slot selected by its type.  The stored single-select
value is the option id's decimal string (the TEXT column). -/
def commitWrite (s : DBState) (row_id column_id : Nat)
    (vw : ValidatedWrite) : DBState :=
  let cells' := s.cells.filter
    (fun cv => !(cv.row_id == row_id && cv.column_id == column_id))
  let multi' := s.multi.filter
    (fun m => !(m.row_id == row_id && m.column_id == column_id))
  match vw with
  | .text t =>
    { s with cells := cells' ++ [⟨row_id, column_id, some t, none, none, none⟩],
             multi := multi' }
  | .number n =>
    { s with cells := cells' ++ [⟨row_id, column_id, none, some n, none, none⟩],
             multi := multi' }
  | .datetime inst =>
    { s with cells := cells' ++ [⟨row_id, column_id, none, none, some inst, none⟩],
             multi := multi' }
  | .singleSelect optId =>
    { s with cells :=
        cells' ++ [⟨row_id, column_id, none, none, none, some (toString optId)⟩],
             multi := multi' }
  | .multiSelect ids =>
    { s with cells := cells',
             multi := multi' ++ ids.map (fun i => ⟨row_id, column_id, i⟩) }

/-- PATCH /api/cell as one transaction: validate, then commit; any
validation failure rolls back to the incoming state and surfaces the
error. -/
def writeCell (dateParse : String → Option Int) (s : DBState)
    (row_id column_id : Nat) (dt : ColumnType) (v : JSValue) :
    Except WriteErr DBState :=
  (validateWrite dateParse s row_id column_id dt v).map
    (commitWrite s row_id column_id)

/-- A cell-write request, for quantifying over write sequences. -/
structure WriteReq where
  row_id : Nat
  column_id : Nat
  dt : ColumnType
  v : JSValue
deriving DecidableEq, Repr

/-- One request as the HTTP layer applies it; a rejected write commits
nothing. -/
def applyWrite (dateParse : String → Option Int) (s : DBState)
    (req : WriteReq) : DBState :=
  match writeCell dateParse s req.row_id req.column_id req.dt req.v with
  | .ok s1 => s1
  | .error _ => s

/-- A whole sequence of cell writes. -/
def applyWrites (dateParse : String → Option Int) (reqs : List WriteReq)
    (s : DBState) : DBState :=
  reqs.foldl (applyWrite dateParse) s

/-! ## Reading a row's cells (GET /api/rows) -/

/-- A value as GET /api/rows reports it, together with the data_type label
the route attaches.  nullOfType is the fall-through when every slot of a
cell_values row is NULL: the route then reports the column's own type with
a null value. -/
inductive ReadValue
  | text (t : String)
  | number (n : JSNum)
  | datetime (inst : Int)
  | singleSelect (t : String)
  | multiSelect (ids : List Nat)
  | nullOfType (ct : ColumnType)
deriving DecidableEq, Repr

/-- One entry of a row's per-column cells list in the GET /api/rows
response. -/
structure CellOut where
  column_id : Nat
  value : ReadValue
deriving DecidableEq, Repr

/-- The if-chain of the route: the first non-NULL slot, in source order
text, number, datetime, single_select, decides the reported value and
data_type. -/
def readSlot (ct : ColumnType) (cv : CellRow) : ReadValue :=
  match cv.text_value with
  | some t => .text t
  | none =>
    match cv.number_value with
    | some n => .number n
    | none =>
      match cv.datetime_value with
      | some inst => .datetime inst
      | none =>
        match cv.single_select_value with
        | some t => .singleSelect t
        | none => .nullOfType ct

/-- The response object the route builds for one cell_values row. -/
def cellOut (ct : ColumnType) (cv : CellRow) : CellOut :=
  ⟨cv.column_id, readSlot ct cv⟩

/-- The multi_select_values rows GET /api/rows collects for one data row:
the JOIN keeps only selections whose column is still active. -/
def msRowsFor (s : DBState) (rowId : Nat) : List MSRow :=
  s.multi.filter (fun m =>
    m.row_id == rowId
      && s.columns.any (fun c => c.id == m.column_id && c.is_active))

/-- The option ids GET /api/rows groups under one column of one row
(multiSelectMap in the source).  A column with no selection rows gets no
key in that map. -/
def readMultiIds (s : DBState) (rowId colId : Nat) : List Nat :=
  ((msRowsFor s rowId).filter (fun m => m.column_id == colId)).map (·.option_id)

/-- The cells array GET /api/rows assembles for one row: the cell_values
rows joined to their active column, then one multi_select entry per column
that has at least one selection row.  (The source iterates the map's keys
in JavaScript numeric-key order; only membership matters to the claims, so
first-appearance order is used here.) -/
def readRowCells (s : DBState) (rowId : Nat) : List CellOut :=
  (s.cells.filterMap (fun cv =>
      if cv.row_id == rowId then
        match s.columns.find? (fun c => c.id == cv.column_id && c.is_active) with
        | some col => some (cellOut col.column_type cv)
        | none => none
      else none))
    ++ (((msRowsFor s rowId).map (·.column_id)).dedup.map
          (fun c => ⟨c, .multiSelect (readMultiIds s rowId c)⟩))

/-- The response value for one column of one row: the first cells-array
entry carrying that column_id, if any. -/
def readCellEntry (s : DBState) (rowId colId : Nat) : Option ReadValue :=
  ((readRowCells s rowId).find? (fun e => e.column_id == colId)).map (·.value)

/-! ## Summary aggregator (GET /api/summary) -/

/-- The datetime values the datetime branch scans: cell_values rows of the
column whose datetime_value is not NULL. -/
def dtVals (s : DBState) (colId : Nat) : List Int :=
  s.cells.filterMap (fun cv =>
    if cv.column_id == colId then cv.datetime_value else none)

/-- ABS(EXTRACT(EPOCH FROM (datetime_value - NOW()))) for one value. -/
def dtDist (now v : Int) : Nat := (v - now).natAbs

/-- The datetime branch runs ORDER BY the absolute distance with LIMIT 1
and no further sort key, so among tied values the database may surface any
of them.  r is a possible answer exactly when some ordering of the
column's values that is sorted by distance starts with r. -/
def PossibleDTSummary (s : DBState) (colId : Nat) (now r : Int) : Prop :=
  ∃ l : List Int, l.Perm (dtVals s colId)
    ∧ l.Sorted (fun a b => dtDist now a ≤ dtDist now b)
    ∧ l.head? = some r

/-- Modelled from the spec: the datetime summary the claim describes —
the value of minimal absolute distance to now, ties broken by the earliest
value; absent when the column has no datetime cells. -/
def claimDatetimeSummary (vals : List Int) (now : Int) : Option Int :=
  vals.foldl
    (fun acc v =>
      match acc with
      | none => some v
      | some b =>
        if dtDist now v < dtDist now b ∨ (dtDist now v = dtDist now b ∧ v < b)
        then some v else some b)
    none

/-- The grouped frequency rows a GROUP BY label produces: one pair per
distinct label with its multiplicity. -/
def labelFreqs (ls : List String) : List (String × Nat) :=
  ls.dedup.map (fun L => (L, ls.count L))

/-- Code-point lexicographic comparison of character lists: the order
ORDER BY label ASC applies (byte order, which agrees with code-point
order for these labels). -/
def charsLt : List Char → List Char → Bool
  | [], [] => false
  | [], _ :: _ => true
  | _ :: _, [] => false
  | c :: cs, d :: ds =>
    if c.toNat < d.toNat then true
    else if d.toNat < c.toNat then false
    else charsLt cs ds

/-- Lexicographic strict order on labels. -/
def strLt (a b : String) : Bool := charsLt a.data b.data

/-- ORDER BY frequency DESC, label ASC with LIMIT 1 over grouped rows:
keep the pair with the larger count, breaking count ties toward the
lexicographically smaller label.  Deterministic because grouped labels are
distinct. -/
def pickStep (acc : Option (String × Nat)) (p : String × Nat) :
    Option (String × Nat) :=
  match acc with
  | none => some p
  | some q =>
    if q.2 < p.2 ∨ (q.2 = p.2 ∧ strLt p.1 q.1 = true) then some p else some q

/-- The first grouped row under the ordering, if any. -/
def pickBest (ps : List (String × Nat)) : Option (String × Nat) :=
  ps.foldl pickStep none

/-- The joined label occurrences of the single_select branch.  The JOIN is
the source's legacy matching: a cell joins every ACTIVE option, of ANY
column, whose option_value or id-as-text equals the stored string. -/
def legacyLabels (s : DBState) (colId : Nat) : List String :=
  (s.cells.filter (fun cv =>
      cv.column_id == colId && cv.single_select_value.isSome)).flatMap
    (fun cv =>
      (s.options.filter (fun o =>
          o.is_active
            && (some o.option_value == cv.single_select_value
                  || some (toString o.id) == cv.single_select_value))).map
        (·.option_value))

/-- The single_select branch of GET /api/summary: most_frequent label and
its count under the legacy matching, count ties broken by ascending label;
null when the join yields nothing. -/
def singleSelectSummary (s : DBState) (colId : Nat) : Option (String × Nat) :=
  pickBest (labelFreqs (legacyLabels s colId))

/-- Modelled from the spec: the single-choice summary the claim describes.
A cell's stored value is its selected option's id, the label comes from
the active option of THIS column carrying that id, labels are ranked by
selection frequency with count ties broken by the lexicographically
smallest label; absent when there are no selections. -/
def claimSingleSelectSummary (s : DBState) (colId : Nat) :
    Option (String × Nat) :=
  pickBest (labelFreqs
    ((s.cells.filter (fun cv =>
        cv.column_id == colId && cv.single_select_value.isSome)).flatMap
      (fun cv =>
        (s.options.filter (fun o =>
            o.column_id == colId && o.is_active
              && some (toString o.id) == cv.single_select_value)).map
          (·.option_value))))

/-- The multi_select_values rows of one column, the rows the multi_select
branch aggregates. -/
def msSel (s : DBState) (colId : Nat) : List MSRow :=
  s.multi.filter (fun m => m.column_id == colId)

/-- The joined label occurrences of the multi_select branch: each
selection row joins the active options carrying its option id. -/
def msLabels (s : DBState) (colId : Nat) : List String :=
  (msSel s colId).flatMap (fun m =>
    (s.options.filter (fun o => o.is_active && o.id == m.option_id)).map
      (·.option_value))

/-- The largest count among grouped rows (rows[0].frequency after the
ORDER BY frequency DESC). -/
def maxFreq (ps : List (String × Nat)) : Nat :=
  ps.foldl (fun acc p => max acc p.2) 0

/-- The multi_select branch of GET /api/summary: every label whose count
ties the maximum, with that count; null when the join yields nothing. -/
def multiSelectSummary (s : DBState) (colId : Nat) :
    Option (List String × Nat) :=
  let ls := msLabels s colId
  if ls.isEmpty then none
  else
    let fs := labelFreqs ls
    let m := maxFreq fs
    some ((fs.filter (fun p => p.2 == m)).map (·.1), m)

/-! ## The cell-store typing invariant (claim C2) -/

/-- Exactly the slot of the given scalar type is populated; a multi_select
column owns no cell_values row at all (its content lives in
multi_select_values). -/
def cellSlotOk : ColumnType → CellRow → Bool
  | .text, cv =>
    cv.text_value.isSome && cv.number_value.isNone
      && cv.datetime_value.isNone && cv.single_select_value.isNone
  | .number, cv =>
    cv.text_value.isNone && cv.number_value.isSome
      && cv.datetime_value.isNone && cv.single_select_value.isNone
  | .datetime, cv =>
    cv.text_value.isNone && cv.number_value.isNone
      && cv.datetime_value.isSome && cv.single_select_value.isNone
  | .single_select, cv =>
    cv.text_value.isNone && cv.number_value.isNone
      && cv.datetime_value.isNone && cv.single_select_value.isSome
  | .multi_select, _ => false

/-- The cell's populated slot agrees with the declared type of a column
carrying its column_id. -/
def cellTypeOk (s : DBState) (cv : CellRow) : Bool :=
  s.columns.any (fun c => c.id == cv.column_id && cellSlotOk c.column_type cv)

/-- A selection row belongs to a multi_select column. -/
def msTypeOk (s : DBState) (m : MSRow) : Bool :=
  s.columns.any (fun c => c.id == m.column_id && c.column_type == .multi_select)

/-- Claim C2's invariant: at most one cell_values row per (row, column)
pair, every cell's populated slot matches its column's declared type, and
every multi_select_values row belongs to a multi_select column. -/
def CellInv (s : DBState) : Prop :=
  (s.cells.map (fun cv => (cv.row_id, cv.column_id))).Nodup
    ∧ (∀ cv ∈ s.cells, cellTypeOk s cv = true)
    ∧ (∀ m ∈ s.multi, msTypeOk s m = true)

instance : DecidablePred CellInv := fun s => by
  unfold CellInv; infer_instance

/-! ## Concrete states and auxiliary source functions for the findings -/

/-- A Date.parse stand-in for witness states; no claim depends on the
parser's behaviour beyond success or failure. -/
def dpNone : String → Option Int := fun _ => none

/-- The number validator the repository's own validation test suite
states as the one "extracted from routes" and pins with
validateNumber(Infinity) = false: on an actual JavaScript number it is
isNaN-false and isFinite-true, so exactly the finite values pass.  (The
original also coerces numeric strings; only number-typed inputs matter to
claim C4.) -/
def validateNumberTest : JSNum → Bool
  | .finite _ => true
  | _ => false

/-- One active number column and one active row, the smallest state on
which the number-validation slip is visible. -/
def stC4 : DBState :=
  ⟨[⟨2, "Age", .number, 1, true⟩], [], [⟨1, 1, true⟩], [], []⟩

/-- One active multi_select column with an active option, one active row,
and no stored selections. -/
def stC3 : DBState :=
  ⟨[⟨5, "Skills", .multi_select, 1, true⟩], [⟨1, 5, "JS", 1, true⟩],
    [⟨1, 1, true⟩], [], []⟩

/-- POST /api/rows applied n times in a row. -/
def insertIter : Nat → DBState → DBState
  | 0, s => s
  | n + 1, s => insertIter n (insertRowAtTop s)

/-! ## Claim C4 -/

/-- Claim C4 (code-bug evidence): PATCH /api/cell on a number column checks
only that the payload is a number that is not NaN, so the non-finite value
Infinity is accepted and a cell carrying it is written, while the
repository's own validation test suite requires validateNumber(Infinity)
to be false.  The claim that every non-finite number is rejected with a
validation error fails at this input. -/
theorem claim4_infinity_accepted :
    writeCell dpNone stC4 1 2 .number (.num .posInf)
      = .ok ⟨[⟨2, "Age", .number, 1, true⟩], [], [⟨1, 1, true⟩],
             [⟨1, 2, none, some .posInf, none, none⟩], []⟩
    ∧ validateNumberTest .posInf = false :=
  ⟨rfl, rfl⟩

/-! ## Claim C3 -/

/-- Claim C3 is false on the code: in a state with an active row 1 and an
active multi_select column 5 holding zero selections for that pair, GET
/api/rows reports no entry at all for column 5 (readCellEntry is none)
instead of an entry whose value is the empty list. -/
theorem claim3_counterexample :
    readCellEntry stC3 1 5 = none
    ∧ readMultiIds stC3 1 5 = []
    ∧ stC3.columns.any
        (fun c => c.id == 5 && c.is_active && c.column_type == .multi_select)
        = true
    ∧ stC3.rows.any (fun r => r.id == 1 && r.is_active) = true := by
  decide

/-- Claim C3 amended: a (row, column) pair with no stored cell_values row
and no stored multi_select_values rows is absent from the per-column cells
map GET /api/rows returns — a zero-selection multi-choice column reads as
absent, not as an empty list. -/
theorem claim3_amended (s : DBState) (rowId colId : Nat)
    (hms : s.multi.filter
        (fun m => m.row_id == rowId && m.column_id == colId) = [])
    (hcv : s.cells.filter
        (fun cv => cv.row_id == rowId && cv.column_id == colId) = []) :
    readCellEntry s rowId colId = none := by
  have hnone : ∀ e ∈ readRowCells s rowId, ¬((e.column_id == colId) = true) := by
    intro e he habs
    have hecol : e.column_id = colId := by
      simpa using habs
    rw [readRowCells, List.mem_append] at he
    rcases he with hleft | hright
    · obtain ⟨cv, hcvmem, hcveq⟩ := List.mem_filterMap.mp hleft
      by_cases hrow : (cv.row_id == rowId) = true
      · rw [if_pos hrow] at hcveq
        rcases hfind : s.columns.find?
            (fun c => c.id == cv.column_id && c.is_active) with _ | col
        · rw [hfind] at hcveq; exact absurd hcveq (by simp)
        · rw [hfind] at hcveq
          have he2 : cellOut col.column_type cv = e := by
            simpa using hcveq
          have hcid : cv.column_id = colId := by
            rw [← he2] at hecol; exact hecol
          have hmem2 : cv ∈ s.cells.filter
              (fun cv => cv.row_id == rowId && cv.column_id == colId) := by
            rw [List.mem_filter]
            exact ⟨hcvmem, by simp [hrow, hcid]⟩
          rw [hcv] at hmem2
          exact absurd hmem2 (List.not_mem_nil _)
      · rw [if_neg hrow] at hcveq; exact absurd hcveq (by simp)
    · obtain ⟨c, hcmem, hceq⟩ := List.mem_map.mp hright
      have hc2 : c = colId := by
        rw [← hceq] at hecol; exact hecol
      have hc3 : c ∈ (msRowsFor s rowId).map (·.column_id) :=
        List.mem_dedup.mp hcmem
      obtain ⟨m, hmmem, hmc⟩ := List.mem_map.mp hc3
      rw [msRowsFor, List.mem_filter] at hmmem
      obtain ⟨hmmulti, hmpred⟩ := hmmem
      have hmrow : (m.row_id == rowId) = true := by
        cases hand : (m.row_id == rowId) <;> simp [hand] at hmpred ⊢
      have hmem2 : m ∈ s.multi.filter
          (fun m => m.row_id == rowId && m.column_id == colId) := by
        rw [List.mem_filter]
        refine ⟨hmmulti, ?_⟩
        simp [hmrow, hmc, hc2]
      rw [hms] at hmem2
      exact absurd hmem2 (List.not_mem_nil _)
  rw [readCellEntry, List.find?_eq_none.mpr hnone]
  rfl

/-- The state instantiating claim C3's amendment: the hypotheses hold and
the pair reads back absent. -/
theorem claim3_amended_witness :
    stC3.multi.filter (fun m => m.row_id == 1 && m.column_id == 5) = []
    ∧ stC3.cells.filter (fun cv => cv.row_id == 1 && cv.column_id == 5) = []
    ∧ readCellEntry stC3 1 5 = none :=
  ⟨by decide, by decide, claim3_amended stC3 1 5 (by decide) (by decide)⟩

/-! ## Claim C10 -/

/-- Each POST /api/rows shifts every pre-existing row, so after n inserts a
pre-existing row's number has grown by n. -/
theorem mem_insertIter (n : Nat) :
    ∀ (s : DBState) (r : DataRow), r ∈ s.rows →
      (⟨r.id, r.row_number + n, r.is_active⟩ : DataRow) ∈ (insertIter n s).rows := by
  induction n with
  | zero =>
    intro s r hr
    simpa [insertIter] using hr
  | succ n ih =>
    intro s r hr
    have h1 : (⟨r.id, r.row_number + 1, r.is_active⟩ : DataRow)
        ∈ (insertRowAtTop s).rows := by
      rw [insertRowAtTop]
      exact List.mem_append_left _ (List.mem_map.mpr ⟨r, hr, rfl⟩)
    have h2 := ih (insertRowAtTop s) ⟨r.id, r.row_number + 1, r.is_active⟩ h1
    simpa [insertIter, Nat.add_assoc, Nat.add_comm 1 n] using h2

/-- Claim C10: POST /api/rows increments the stored row_number of every
pre-existing row — inactive rows included — and inserts the new row at
position 1; hence a deactivated row's number grows by one per subsequent
insert, while DELETE /api/rows/:id leaves every inactive row (number and
all) untouched, compacting active rows only. -/
theorem claim10_inactive_rows_drift (s : DBState) (r : DataRow)
    (hr : r ∈ s.rows) :
    ((⟨r.id, r.row_number + 1, r.is_active⟩ : DataRow)
        ∈ (insertRowAtTop s).rows)
    ∧ ((⟨freshRowId s, 1, true⟩ : DataRow) ∈ (insertRowAtTop s).rows)
    ∧ (∀ n : Nat,
        (⟨r.id, r.row_number + n, r.is_active⟩ : DataRow)
          ∈ (insertIter n s).rows)
    ∧ (r.is_active = false → ∀ rid : Nat,
        r ∈ (applyRowOp s (.delete rid)).rows) := by
  refine ⟨?_, ?_, fun n => mem_insertIter n s r hr, ?_⟩
  · rw [insertRowAtTop]
    exact List.mem_append_left _ (List.mem_map.mpr ⟨r, hr, rfl⟩)
  · rw [insertRowAtTop]
    exact List.mem_append_right _ (List.mem_singleton.mpr rfl)
  · intro hina rid
    rw [applyRowOp]
    rcases hdel : deleteRow s rid with _ | s2
    · simpa using hr
    · rw [deleteRow] at hdel
      rcases hfind : s.rows.find? (fun r => r.id == rid && r.is_active)
          with _ | r0
      · rw [hfind] at hdel; exact absurd hdel (by simp)
      · rw [hfind] at hdel
        have hs2 : s2.rows = (s.rows.map (fun r =>
              if r.id == rid then { r with is_active := false } else r)).map
            (fun r =>
              if r.is_active && r0.row_number < r.row_number then
                { r with row_number := r.row_number - 1 }
              else r) := by
          have := Option.some.inj hdel
          rw [← this]
        have hfix : (fun r : DataRow =>
              if r.is_active && r0.row_number < r.row_number then
                { r with row_number := r.row_number - 1 }
              else r)
            ((fun r : DataRow =>
              if r.id == rid then { r with is_active := false } else r) r)
            = r := by
          by_cases hid : (r.id == rid) = true
          · simp only [hid, if_pos]
            have : ({ r with is_active := false } : DataRow) = r := by
              cases r; simp_all
            rw [this]
            simp [hina]
          · simp only [hid]
            simp [hina]
        rw [Option.getD_some, hs2]
        rw [← hfix]
        exact List.mem_map.mpr ⟨_, List.mem_map.mpr ⟨r, hr, rfl⟩, rfl⟩

/-- Instantiation of claim C10: an inactive row at number 3 reaches number
5 after two inserts and survives a delete unchanged. -/
theorem claim10_witness :
    ((⟨7, 3, false⟩ : DataRow) ∈
        (⟨[], [], [⟨7, 3, false⟩, ⟨8, 1, true⟩], [], []⟩ : DBState).rows)
    ∧ ((⟨7, 3 + 2, false⟩ : DataRow) ∈
        (insertIter 2 ⟨[], [], [⟨7, 3, false⟩, ⟨8, 1, true⟩], [], []⟩).rows)
    ∧ ((⟨7, 3, false⟩ : DataRow) ∈
        (applyRowOp ⟨[], [], [⟨7, 3, false⟩, ⟨8, 1, true⟩], [], []⟩
            (.delete 8)).rows) := by
  have h := claim10_inactive_rows_drift
    ⟨[], [], [⟨7, 3, false⟩, ⟨8, 1, true⟩], [], []⟩ ⟨7, 3, false⟩ (by decide)
  exact ⟨by decide, h.2.2.1 2, h.2.2.2 rfl 8⟩

/-! ## Claim C8 -/

/-- A payload option id is usable for the column: some stored option
carries it, belongs to the column, and is active. -/
def ValidMSOpt (s : DBState) (colId i : Nat) : Prop :=
  ∃ o ∈ s.options, o.column_id = colId ∧ o.is_active = true ∧ o.id = i

instance (s : DBState) (colId i : Nat) : Decidable (ValidMSOpt s colId i) := by
  unfold ValidMSOpt; infer_instance

/-- A successful multi_select validation implies the matched-options count
equals the payload length (the route's all-or-nothing check). -/
theorem validateWrite_multi_ok (dp : String → Option Int) (s : DBState)
    (row_id colId : Nat) (ids : List Nat) (vw : ValidatedWrite)
    (h : validateWrite dp s row_id colId .multi_select (.arr ids) = .ok vw) :
    (s.options.filter (fun o =>
        o.column_id == colId && o.is_active && ids.contains o.id)).length
      = ids.length := by
  simp only [validateWrite] at h
  split at h
  · exact absurd h (by simp)
  · split at h
    · exact absurd h (by simp)
    · split at h
      · exact absurd h (by simp)
      · split at h
        · exact absurd h (by simp)
        · split at h
          · next hcond => simpa using hcond
          · exact absurd h (by simp)

/-- If the payload contains even one id that is not an active option of
the target column, the matched-options count is strictly below the payload
length (primary-key uniqueness of option ids given). -/
theorem matched_lt_of_bad (s : DBState) (colId : Nat) (ids : List Nat)
    (hnodup : (s.options.map (·.id)).Nodup)
    (i : Nat) (hiids : i ∈ ids) (hibad : ¬ ValidMSOpt s colId i) :
    (s.options.filter (fun o =>
        o.column_id == colId && o.is_active && ids.contains o.id)).length
      < ids.length := by
  set p : OptionRow → Bool :=
    fun o => o.column_id == colId && o.is_active && ids.contains o.id with hp
  set A : List Nat := (s.options.filter p).map (·.id) with hA
  have hAnodup : A.Nodup :=
    hnodup.sublist (List.Sublist.map _ (List.filter_sublist _))
  have hmemA : ∀ a ∈ A, a ∈ ids ∧ a ≠ i := by
    intro a ha
    obtain ⟨o, hof, hoa⟩ := List.mem_map.mp ha
    obtain ⟨homem, hpo⟩ := List.mem_filter.mp hof
    rw [hp] at hpo
    simp only [Bool.and_eq_true, beq_iff_eq] at hpo
    obtain ⟨⟨hcol, hact⟩, hcont⟩ := hpo
    have hmem : o.id ∈ ids := by simpa using hcont
    refine ⟨hoa ▸ hmem, ?_⟩
    intro hai
    exact hibad ⟨o, homem, hcol, hact, by rw [hoa, hai]⟩
  have hsub : A.toFinset ⊆ ids.toFinset.erase i := by
    intro a ha
    have ha2 := hmemA a (List.mem_toFinset.mp ha)
    exact Finset.mem_erase.mpr ⟨ha2.2, List.mem_toFinset.mpr ha2.1⟩
  have hcard : A.length < ids.length := by
    calc A.length = A.toFinset.card := (List.toFinset_card_of_nodup hAnodup).symm
      _ ≤ (ids.toFinset.erase i).card := Finset.card_le_card hsub
      _ < ids.toFinset.card :=
          Finset.card_erase_lt_of_mem (List.mem_toFinset.mpr hiids)
      _ ≤ ids.length := List.toFinset_card_le ids
  rw [hA, List.length_map] at hcard
  exact hcard

/-- Claim C8: a multi-choice write whose payload contains any option id
that does not belong to the target column or is not active is rejected
whole — the route errors and the state is unchanged, never accepting a
subset of the valid ids. -/
theorem claim8_all_or_nothing (dp : String → Option Int) (s : DBState)
    (row_id colId : Nat) (ids : List Nat)
    (hnodup : (s.options.map (·.id)).Nodup)
    (hbad : ∃ i ∈ ids, ¬ ValidMSOpt s colId i) :
    (∃ e, writeCell dp s row_id colId .multi_select (.arr ids) = .error e)
    ∧ applyWrite dp s ⟨row_id, colId, .multi_select, .arr ids⟩ = s := by
  obtain ⟨i, hiids, hibad⟩ := hbad
  have hlt := matched_lt_of_bad s colId ids hnodup i hiids hibad
  rcases hval : validateWrite dp s row_id colId .multi_select (.arr ids)
      with e | vw
  · constructor
    · exact ⟨e, by rw [writeCell, hval]; rfl⟩
    · simp [applyWrite, writeCell, hval, Except.map]
  · exact absurd (validateWrite_multi_ok dp s row_id colId ids vw hval)
      (Nat.ne_of_lt hlt)

/-- Instantiation of claim C8: a payload mixing the valid option 1 with
the foreign option 9 is rejected and commits nothing. -/
theorem claim8_witness :
    ((stC3.options.map (·.id)).Nodup ∧ (9 ∈ [1, 9] ∧ ¬ ValidMSOpt stC3 5 9))
    ∧ ((∃ e, writeCell dpNone stC3 1 5 .multi_select (.arr [1, 9]) = .error e)
        ∧ applyWrite dpNone stC3 ⟨1, 5, .multi_select, .arr [1, 9]⟩ = stC3) :=
  ⟨⟨by decide, by decide, by decide⟩,
    claim8_all_or_nothing dpNone stC3 1 5 [1, 9] (by decide)
      ⟨9, by decide, by decide⟩⟩

/-! ## Claim C9 -/

/-- The single cell_values row a validated scalar write inserts; a
multi_select write inserts none. -/
def scalarCell (row_id column_id : Nat) : ValidatedWrite → Option CellRow
  | .text t => some ⟨row_id, column_id, some t, none, none, none⟩
  | .number n => some ⟨row_id, column_id, none, some n, none, none⟩
  | .datetime inst => some ⟨row_id, column_id, none, none, some inst, none⟩
  | .singleSelect optId =>
    some ⟨row_id, column_id, none, none, none, some (toString optId)⟩
  | .multiSelect _ => none

/-- The multi_select_values rows a validated write inserts. -/
def msInserted (row_id column_id : Nat) : ValidatedWrite → List MSRow
  | .multiSelect ids => ids.map (fun i => ⟨row_id, column_id, i⟩)
  | _ => []

theorem commitWrite_columns (s : DBState) (row_id column_id : Nat)
    (vw : ValidatedWrite) :
    (commitWrite s row_id column_id vw).columns = s.columns := by
  cases vw <;> rfl

theorem commitWrite_cells (s : DBState) (row_id column_id : Nat)
    (vw : ValidatedWrite) :
    (commitWrite s row_id column_id vw).cells
      = s.cells.filter
          (fun cv => !(cv.row_id == row_id && cv.column_id == column_id))
        ++ (scalarCell row_id column_id vw).toList := by
  cases vw <;> simp [commitWrite, scalarCell]

theorem commitWrite_multi (s : DBState) (row_id column_id : Nat)
    (vw : ValidatedWrite) :
    (commitWrite s row_id column_id vw).multi
      = s.multi.filter
          (fun m => !(m.row_id == row_id && m.column_id == column_id))
        ++ msInserted row_id column_id vw := by
  cases vw <;> simp [commitWrite, msInserted]

/-- What a successful validation tells us, per declared type: the column
is found active with exactly that type, and the payload has the matching
shape. -/
theorem validateWrite_ok_shape (dp : String → Option Int) (s : DBState)
    (row_id colId : Nat) (dt : ColumnType) (v : JSValue) (vw : ValidatedWrite)
    (h : validateWrite dp s row_id colId dt v = .ok vw) :
    (∃ col, s.columns.find? (fun c => c.id == colId && c.is_active) = some col
        ∧ col.column_type = dt)
    ∧ (match dt with
       | .text => ∃ t, v = .str t ∧ vw = .text t
       | .number => ∃ n, v = .num n ∧ vw = .number n
       | .datetime => ∃ t inst, v = .str t ∧ dp t = some inst
           ∧ vw = .datetime inst
       | .single_select => ∃ o, (v = .num (.finite (o.id : ℚ)))
           ∧ o ∈ s.options ∧ vw = .singleSelect o.id
       | .multi_select => ∃ ids, v = .arr ids ∧ vw = .multiSelect ids) := by
  rw [validateWrite.eq_def] at h
  by_cases h0 : (row_id == 0 || colId == 0) = true
  · rw [if_pos h0] at h; exact absurd h (by simp)
  rw [if_neg h0] at h
  by_cases h1 : (!s.rows.any fun r => r.id == row_id && r.is_active) = true
  · rw [if_pos h1] at h; exact absurd h (by simp)
  rw [if_neg h1] at h
  rcases hfind : s.columns.find? (fun c => c.id == colId && c.is_active)
      with _ | col
  · rw [hfind] at h; exact absurd h (by simp)
  rw [hfind] at h
  simp only at h
  by_cases h2 : (dt != col.column_type) = true
  · rw [if_pos h2] at h; exact absurd h (by simp)
  rw [if_neg h2] at h
  have htype : col.column_type = dt := by
    have h3 : ¬ dt ≠ col.column_type := by simpa using h2
    exact (not_not.mp h3).symm
  refine ⟨⟨col, hfind, htype⟩, ?_⟩
  cases dt <;> cases v <;> try exact Except.noConfusion h
  · rename_i t hdup1
    have h4 : Except.ok (ValidatedWrite.text t) = Except.ok vw := h
    exact ⟨t, rfl, (Except.ok.inj h4).symm⟩
  · rename_i n hdup2
    rcases hn : n.isNaNb with _ | _
    · have h4 : (if JSNum.isNaNb n = true then
          (Except.error WriteErr.badValue : Except WriteErr ValidatedWrite)
          else Except.ok (ValidatedWrite.number n)) = Except.ok vw := h
      rw [hn, if_neg (by simp)] at h4
      exact ⟨n, rfl, (Except.ok.inj h4).symm⟩
    · have h4 : (if JSNum.isNaNb n = true then
          (Except.error WriteErr.badValue : Except WriteErr ValidatedWrite)
          else Except.ok (ValidatedWrite.number n)) = Except.ok vw := h
      rw [hn, if_pos rfl] at h4
      exact Except.noConfusion h4
  · rename_i t hdup3
    have h4 : (match dp t with
        | some inst => (Except.ok (ValidatedWrite.datetime inst) :
            Except WriteErr ValidatedWrite)
        | none => Except.error WriteErr.badValue) = Except.ok vw := h
    rcases hdp : dp t with _ | inst
    · rw [hdp] at h4; exact Except.noConfusion h4
    · rw [hdp] at h4
      exact ⟨t, inst, rfl, hdp, (Except.ok.inj h4).symm⟩
  · rename_i n hdup4
    have h4 : (match s.options.find?
          (fun o => o.column_id == colId && o.is_active && jsEqNat n o.id) with
        | some o => (Except.ok (ValidatedWrite.singleSelect o.id) :
            Except WriteErr ValidatedWrite)
        | none => Except.error WriteErr.badOption) = Except.ok vw := h
    rcases hopt : s.options.find?
        (fun o => o.column_id == colId && o.is_active && jsEqNat n o.id)
        with _ | o
    · rw [hopt] at h4; exact Except.noConfusion h4
    · rw [hopt] at h4
      have hno : jsEqNat n o.id = true := by
        have hps := List.find?_some hopt
        simp only [Bool.and_eq_true] at hps
        exact hps.2
      have hn2 : n = .finite (o.id : ℚ) := by
        rw [jsEqNat] at hno
        exact eq_of_beq hno
      exact ⟨o, by rw [hn2], List.mem_of_find?_eq_some hopt,
        (Except.ok.inj h4).symm⟩
  · rename_i ids hdup5
    have h4 : (if ((s.options.filter (fun o =>
          o.column_id == colId && o.is_active && ids.contains o.id)).length
            == ids.length) = true then
          (Except.ok (ValidatedWrite.multiSelect ids) :
            Except WriteErr ValidatedWrite)
        else Except.error WriteErr.badOption) = Except.ok vw := h
    by_cases hc : ((s.options.filter (fun o =>
        o.column_id == colId && o.is_active && ids.contains o.id)).length
          == ids.length) = true
    · rw [if_pos hc] at h4
      exact ⟨ids, rfl, (Except.ok.inj h4).symm⟩
    · rw [if_neg hc] at h4
      exact Except.noConfusion h4

/-- After a scalar commit, the GET /api/rows entry for the pair is exactly
the freshly inserted cell, rendered through the column found by the
validation lookup (the read path uses the same predicate on the same
unchanged columns table). -/
theorem readCellEntry_commit_scalar (s : DBState) (row colId : Nat)
    (col : ColumnMeta)
    (hfind : s.columns.find? (fun c => c.id == colId && c.is_active) = some col)
    (vw : ValidatedWrite) (cv0 : CellRow)
    (hcv0 : scalarCell row colId vw = some cv0) :
    readCellEntry (commitWrite s row colId vw) row colId
      = some (readSlot col.column_type cv0) := by
  have hr0 : cv0.row_id = row := by
    cases vw <;> simp [scalarCell] at hcv0 <;> rw [← hcv0]
  have hc0 : cv0.column_id = colId := by
    cases vw <;> simp [scalarCell] at hcv0 <;> rw [← hcv0]
  have hms0 : msInserted row colId vw = [] := by
    cases vw <;> first
      | rfl
      | exact absurd hcv0 (by simp [scalarCell])
  have hcells : (commitWrite s row colId vw).cells
      = s.cells.filter
          (fun cv => !(cv.row_id == row && cv.column_id == colId)) ++ [cv0] := by
    rw [commitWrite_cells, hcv0]; rfl
  have hmulti : (commitWrite s row colId vw).multi
      = s.multi.filter
          (fun m => !(m.row_id == row && m.column_id == colId)) := by
    rw [commitWrite_multi, hms0, List.append_nil]
  simp only [readCellEntry, readRowCells, msRowsFor, readMultiIds,
    commitWrite_columns, hcells, hmulti]
  rw [List.filterMap_append]
  have hone : List.filterMap (fun cv =>
      if cv.row_id == row then
        match s.columns.find? (fun c => c.id == cv.column_id && c.is_active) with
        | some col => some (cellOut col.column_type cv)
        | none => none
      else none) [cv0] = [cellOut col.column_type cv0] := by
    simp only [List.filterMap_cons, List.filterMap_nil]
    rw [hr0, hc0]
    simp [hfind]
  rw [hone]
  have hnoneA : List.find? (fun e => e.column_id == colId)
      (List.filterMap (fun cv =>
        if cv.row_id == row then
          match s.columns.find? (fun c => c.id == cv.column_id && c.is_active) with
          | some col => some (cellOut col.column_type cv)
          | none => none
        else none)
        (s.cells.filter
          (fun cv => !(cv.row_id == row && cv.column_id == colId)))) = none := by
    rw [List.find?_eq_none]
    intro e he
    obtain ⟨cv, hcvF, hf⟩ := List.mem_filterMap.mp he
    obtain ⟨hcvmem, hcvpred⟩ := List.mem_filter.mp hcvF
    by_cases hrow : (cv.row_id == row) = true
    · rw [if_pos hrow] at hf
      have hcol : (cv.column_id == colId) = false := by
        rw [hrow] at hcvpred
        simpa using hcvpred
      rcases hf2 : s.columns.find?
          (fun c => c.id == cv.column_id && c.is_active) with _ | col2
      · rw [hf2] at hf; exact absurd hf (by simp)
      · rw [hf2] at hf
        have he2 : cellOut col2.column_type cv = e := by simpa using hf
        intro habs
        rw [← he2] at habs
        simp only [cellOut] at habs
        rw [hcol] at habs
        exact absurd habs (by simp)
    · rw [if_neg hrow] at hf
      exact absurd hf (by simp)
  rw [List.find?_append, List.find?_append, hnoneA]
  have hfound : List.find? (fun e => e.column_id == colId)
      [cellOut col.column_type cv0] = some (cellOut col.column_type cv0) := by
    have : ((cellOut col.column_type cv0).column_id == colId) = true := by
      simp [cellOut, hc0]
    simp [List.find?, this]
  rw [hfound]
  rfl

/-- After a multi-select commit, the option ids GET /api/rows groups for
the pair are exactly the payload in order, the column being active. -/
theorem readMultiIds_commit_multi (s : DBState) (row colId : Nat)
    (ids : List Nat)
    (hact : s.columns.any (fun c => c.id == colId && c.is_active) = true) :
    readMultiIds (commitWrite s row colId (.multiSelect ids)) row colId
      = ids := by
  simp only [readMultiIds, msRowsFor, commitWrite_columns, commitWrite_multi,
    msInserted]
  rw [List.filter_append, List.filter_append, List.map_append]
  have hold : ((s.multi.filter
        (fun m => !(m.row_id == row && m.column_id == colId))).filter
      (fun m => m.row_id == row
        && s.columns.any (fun c => c.id == m.column_id && c.is_active))).filter
      (fun m => m.column_id == colId) = [] := by
    rw [List.filter_eq_nil_iff]
    intro m hm hcol
    obtain ⟨hm2, hrow2⟩ := List.mem_filter.mp hm
    obtain ⟨hm3, hpair⟩ := List.mem_filter.mp hm2
    have hrow : (m.row_id == row) = true := by
      simp only [Bool.and_eq_true] at hrow2
      exact hrow2.1
    rw [hrow, hcol] at hpair
    simp at hpair
  have hinner : (ids.map (fun i => (⟨row, colId, i⟩ : MSRow))).filter
      (fun m => m.row_id == row
        && s.columns.any (fun c => c.id == m.column_id && c.is_active))
      = ids.map (fun i => (⟨row, colId, i⟩ : MSRow)) := by
    apply List.filter_eq_self.mpr
    intro m hm
    obtain ⟨i, hi, hmi⟩ := List.mem_map.mp hm
    rw [← hmi]
    simp only [beq_self_eq_true, Bool.true_and]
    exact hact
  have houter : (ids.map (fun i => (⟨row, colId, i⟩ : MSRow))).filter
      (fun m => m.column_id == colId)
      = ids.map (fun i => (⟨row, colId, i⟩ : MSRow)) := by
    apply List.filter_eq_self.mpr
    intro m hm
    obtain ⟨i, hi, hmi⟩ := List.mem_map.mp hm
    rw [← hmi]
    simp
  rw [hold, hinner, houter, List.map_nil, List.nil_append, List.map_map]
  have hcomp : ((fun x : MSRow => x.option_id)
      ∘ fun i => (⟨row, colId, i⟩ : MSRow)) = id := rfl
  rw [hcomp, List.map_id]

/-- Claim C9: a value accepted by PATCH /api/cell reads straight back
through GET /api/rows — the entry for the written column carries the same
typed value (a single-select option id being rendered as its stored
decimal string), and a multi-choice payload reads back as exactly the same
set of option ids. -/
theorem claim9_roundtrip (dp : String → Option Int) (s : DBState)
    (row colId : Nat) (dt : ColumnType) (v : JSValue) (s1 : DBState)
    (h : writeCell dp s row colId dt v = .ok s1) :
    (dt = .text → ∃ t, v = .str t
        ∧ readCellEntry s1 row colId = some (.text t))
    ∧ (dt = .number → ∃ n, v = .num n
        ∧ readCellEntry s1 row colId = some (.number n))
    ∧ (dt = .datetime → ∃ t inst, v = .str t ∧ dp t = some inst
        ∧ readCellEntry s1 row colId = some (.datetime inst))
    ∧ (dt = .single_select → ∃ k : Nat, v = .num (.finite (k : ℚ))
        ∧ readCellEntry s1 row colId = some (.singleSelect (toString k)))
    ∧ (dt = .multi_select → ∃ ids, v = .arr ids
        ∧ readMultiIds s1 row colId = ids
        ∧ (∀ x, x ∈ readMultiIds s1 row colId ↔ x ∈ ids)) := by
  rcases hval : validateWrite dp s row colId dt v with e | vw
  · rw [writeCell, hval] at h
    exact Except.noConfusion h
  rw [writeCell, hval] at h
  have hs1 : s1 = commitWrite s row colId vw := (Except.ok.inj h).symm
  obtain ⟨⟨col, hfind, htype⟩, hshape⟩ :=
    validateWrite_ok_shape dp s row colId dt v vw hval
  refine ⟨?_, ?_, ?_, ?_, ?_⟩ <;> intro hdt <;> subst hdt
  · obtain ⟨t, hv, hvw⟩ := hshape
    subst hvw
    refine ⟨t, hv, ?_⟩
    rw [hs1, readCellEntry_commit_scalar s row colId col hfind (.text t)
      ⟨row, colId, some t, none, none, none⟩ rfl]
    rfl
  · obtain ⟨n, hv, hvw⟩ := hshape
    subst hvw
    refine ⟨n, hv, ?_⟩
    rw [hs1, readCellEntry_commit_scalar s row colId col hfind (.number n)
      ⟨row, colId, none, some n, none, none⟩ rfl]
    rfl
  · obtain ⟨t, inst, hv, hdp, hvw⟩ := hshape
    subst hvw
    refine ⟨t, inst, hv, hdp, ?_⟩
    rw [hs1, readCellEntry_commit_scalar s row colId col hfind (.datetime inst)
      ⟨row, colId, none, none, some inst, none⟩ rfl]
    rfl
  · obtain ⟨o, hv, homem, hvw⟩ := hshape
    subst hvw
    refine ⟨o.id, hv, ?_⟩
    rw [hs1, readCellEntry_commit_scalar s row colId col hfind (.singleSelect o.id)
      ⟨row, colId, none, none, none, some (toString o.id)⟩ rfl]
    rfl
  · obtain ⟨ids, hv, hvw⟩ := hshape
    subst hvw
    have hcolp := List.find?_some hfind
    have hcolmem := List.mem_of_find?_eq_some hfind
    have hact : s.columns.any (fun c => c.id == colId && c.is_active) = true :=
      List.any_eq_true.mpr ⟨col, hcolmem, hcolp⟩
    have hrm := readMultiIds_commit_multi s row colId ids hact
    rw [hs1]
    exact ⟨ids, hv, hrm, fun x => by rw [hrm]⟩

/-- The concrete state instantiating claim C9: a text column 3 and a
multi_select column 5 with options 1 and 2, one active row. -/
def stC9 : DBState :=
  ⟨[⟨3, "Name", .text, 1, true⟩, ⟨5, "Skills", .multi_select, 2, true⟩],
    [⟨1, 5, "JS", 1, true⟩, ⟨2, 5, "Py", 2, true⟩],
    [⟨1, 1, true⟩], [], []⟩

/-- stC9 after writing the text "hi" to column 3 of row 1. -/
def stC9a : DBState :=
  ⟨[⟨3, "Name", .text, 1, true⟩, ⟨5, "Skills", .multi_select, 2, true⟩],
    [⟨1, 5, "JS", 1, true⟩, ⟨2, 5, "Py", 2, true⟩],
    [⟨1, 1, true⟩], [⟨1, 3, some "hi", none, none, none⟩], []⟩

/-- stC9 after writing the option set 2, 1 to column 5 of row 1. -/
def stC9b : DBState :=
  ⟨[⟨3, "Name", .text, 1, true⟩, ⟨5, "Skills", .multi_select, 2, true⟩],
    [⟨1, 5, "JS", 1, true⟩, ⟨2, 5, "Py", 2, true⟩],
    [⟨1, 1, true⟩], [], [⟨1, 5, 2⟩, ⟨1, 5, 1⟩]⟩

/-- Instantiation of claim C9: a text write and a multi-select write on a
concrete state, each reading straight back. -/
theorem claim9_witness :
    (writeCell dpNone stC9 1 3 .text (.str "hi") = .ok stC9a
      ∧ (∃ t, JSValue.str "hi" = JSValue.str t
          ∧ readCellEntry stC9a 1 3 = some (.text t)))
    ∧ (writeCell dpNone stC9 1 5 .multi_select (.arr [2, 1]) = .ok stC9b
      ∧ (∃ ids, JSValue.arr [2, 1] = JSValue.arr ids
          ∧ readMultiIds stC9b 1 5 = ids
          ∧ (∀ x, x ∈ readMultiIds stC9b 1 5 ↔ x ∈ ids))) :=
  ⟨⟨rfl, (claim9_roundtrip dpNone stC9 1 3 .text (.str "hi") stC9a rfl).1 rfl⟩,
    ⟨rfl, (claim9_roundtrip dpNone stC9 1 5 .multi_select (.arr [2, 1]) stC9b
        rfl).2.2.2.2 rfl⟩⟩

/-! ## Claim C6 -/

theorem charsLt_irrefl (l : List Char) : charsLt l l = false := by
  induction l with
  | nil => rfl
  | cons c cs ih =>
    rw [charsLt, if_neg (lt_irrefl _), if_neg (lt_irrefl _)]
    exact ih

theorem charsLt_trans : ∀ {a b c : List Char},
    charsLt a b = true → charsLt b c = true → charsLt a c = true
  | [], [], _, h1, _ => by rw [charsLt] at h1; exact absurd h1 (by simp)
  | [], _ :: _, [], _, h2 => by rw [charsLt] at h2; exact absurd h2 (by simp)
  | [], _ :: _, _ :: _, _, _ => by rw [charsLt]
  | _ :: _, [], _, h1, _ => by rw [charsLt] at h1; exact absurd h1 (by simp)
  | _ :: _, _ :: _, [], _, h2 => by
    rw [charsLt] at h2; exact absurd h2 (by simp)
  | u :: us, x :: xs, y :: ys, h1, h2 => by
    rw [charsLt] at h1 h2 ⊢
    by_cases hux : u.toNat < x.toNat
    · by_cases hxy : x.toNat < y.toNat
      · rw [if_pos (lt_trans hux hxy)]
      · rw [if_neg hxy] at h2
        by_cases hyx : y.toNat < x.toNat
        · rw [if_pos hyx] at h2
          exact absurd h2 (by simp)
        · rw [if_pos (by omega)]
    · rw [if_neg hux] at h1
      by_cases hxu : x.toNat < u.toNat
      · rw [if_pos hxu] at h1
        exact absurd h1 (by simp)
      · rw [if_neg hxu] at h1
        by_cases hxy : x.toNat < y.toNat
        · rw [if_pos (by omega)]
        · rw [if_neg hxy] at h2
          by_cases hyx : y.toNat < x.toNat
          · rw [if_pos hyx] at h2
            exact absurd h2 (by simp)
          · rw [if_neg hyx] at h2
            rw [if_neg (by omega), if_neg (by omega)]
            exact charsLt_trans h1 h2

theorem charsLt_connex : ∀ {a b : List Char},
    charsLt a b = false → charsLt b a = false → a = b
  | [], [], _, _ => rfl
  | [], _ :: _, h1, _ => by rw [charsLt] at h1; exact absurd h1 (by simp)
  | _ :: _, [], _, h2 => by rw [charsLt] at h2; exact absurd h2 (by simp)
  | u :: us, x :: xs, h1, h2 => by
    rw [charsLt] at h1 h2
    by_cases hux : u.toNat < x.toNat
    · rw [if_pos hux] at h1; exact absurd h1 (by simp)
    · by_cases hxu : x.toNat < u.toNat
      · rw [if_pos hxu] at h2; exact absurd h2 (by simp)
      · rw [if_neg hux, if_neg hxu] at h1
        rw [if_neg hxu, if_neg hux] at h2
        have hux2 : u = x := by
          have hn : u.toNat = x.toNat := by omega
          have hv : u.val = x.val := by
            simp only [Char.toNat] at hn
            exact UInt32.ext hn
          exact Char.eq_of_val_eq hv
        rw [hux2, charsLt_connex h1 h2]

theorem strLt_trans {a b c : String} (h1 : strLt a b = true)
    (h2 : strLt b c = true) : strLt a c = true :=
  charsLt_trans h1 h2

theorem strLt_notLt_trans {a b c : String} (h1 : strLt a b = false)
    (h2 : strLt b c = false) : strLt a c = false := by
  rcases hba : strLt b a with _ | _
  · have hab : a = b := by
      cases a; cases b
      have := charsLt_connex (a := _) h1 hba
      simp_all [strLt]
    rw [hab]; exact h2
  · rcases hac : strLt a c with _ | _
    · rfl
    · have : strLt b c = true := strLt_trans hba hac
      rw [h2] at this
      exact absurd this (by simp)

/-- The strict order ORDER BY frequency DESC, label ASC induces on grouped
rows: p comes strictly before q. -/
def Better (p q : String × Nat) : Prop :=
  q.2 < p.2 ∨ (q.2 = p.2 ∧ strLt p.1 q.1 = true)

instance (p q : String × Nat) : Decidable (Better p q) := by
  unfold Better; infer_instance

theorem Better.trans_better {p q r : String × Nat}
    (h1 : Better p q) (h2 : Better q r) : Better p r := by
  rcases h1 with h1 | ⟨h1a, h1b⟩ <;> rcases h2 with h2 | ⟨h2a, h2b⟩
  · exact Or.inl (lt_trans h2 h1)
  · exact Or.inl (h2a ▸ h1)
  · exact Or.inl (h1a ▸ h2)
  · exact Or.inr ⟨h2a.trans h1a, strLt_trans h1b h2b⟩

theorem notBetter_trans {p q r : String × Nat}
    (hpq : ¬ Better p q) (hqr : ¬ Better q r) : ¬ Better p r := by
  simp only [Better, not_or, not_and, not_lt, Bool.not_eq_true] at hpq hqr ⊢
  obtain ⟨hpq1, hpq2⟩ := hpq
  obtain ⟨hqr1, hqr2⟩ := hqr
  refine ⟨le_trans hpq1 hqr1, ?_⟩
  intro heq
  have h1 : q.2 = p.2 := le_antisymm (le_trans hqr1 (le_of_eq heq)) hpq1
  have h2 : r.2 = q.2 := by rw [h1, heq]
  exact strLt_notLt_trans (hpq2 h1) (hqr2 h2)

theorem notBetter_refl (p : String × Nat) : ¬ Better p p := by
  simp [Better, strLt, charsLt_irrefl]

theorem pickStep_eq (q p : String × Nat) :
    pickStep (some q) p = if Better p q then some p else some q := rfl

/-- The fold behind the LIMIT 1 query lands on a grouped row no other
grouped row precedes in the ordering. -/
theorem pickBest_go (ps : List (String × Nat)) :
    ∀ q : String × Nat, ∃ r, ps.foldl pickStep (some q) = some r
      ∧ (r = q ∨ r ∈ ps) ∧ ¬ Better q r ∧ ∀ p ∈ ps, ¬ Better p r := by
  induction ps with
  | nil =>
    intro q
    exact ⟨q, rfl, Or.inl rfl, notBetter_refl q, by simp⟩
  | cons p ps ih =>
    intro q
    rw [List.foldl_cons, pickStep_eq]
    by_cases hb : Better p q
    · rw [if_pos hb]
      obtain ⟨r, hr, hmem, hpr, hall⟩ := ih p
      refine ⟨r, hr, ?_, ?_, ?_⟩
      · rcases hmem with h | h
        · exact Or.inr (h ▸ List.mem_cons_self p ps)
        · exact Or.inr (List.mem_cons_of_mem p h)
      · intro habs
        exact hpr (hb.trans_better habs)
      · intro p2 hp2
        rcases List.mem_cons.mp hp2 with h | h
        · exact h ▸ hpr
        · exact hall p2 h
    · rw [if_neg hb]
      obtain ⟨r, hr, hmem, hqr, hall⟩ := ih q
      refine ⟨r, hr, ?_, hqr, ?_⟩
      · rcases hmem with h | h
        · exact Or.inl h
        · exact Or.inr (List.mem_cons_of_mem p h)
      · intro p2 hp2
        rcases List.mem_cons.mp hp2 with h | h
        · exact h ▸ notBetter_trans hb hqr
        · exact hall p2 h

/-- On a nonempty grouped-rows list the query returns a row that no row
precedes: maximal frequency, and among those the least label. -/
theorem pickBest_some (ps : List (String × Nat)) (hne : ps ≠ []) :
    ∃ r, pickBest ps = some r ∧ r ∈ ps ∧ ∀ p ∈ ps, ¬ Better p r := by
  cases ps with
  | nil => exact absurd rfl hne
  | cons p0 rest =>
    rw [pickBest, List.foldl_cons]
    obtain ⟨r, hr, hmem, hqr, hall⟩ := pickBest_go rest p0
    refine ⟨r, hr, ?_, ?_⟩
    · rcases hmem with h | h
      · exact h ▸ List.mem_cons_self p0 rest
      · exact List.mem_cons_of_mem p0 h
    · intro p hp
      rcases List.mem_cons.mp hp with h | h
      · exact h ▸ hqr
      · exact hall p h

/-- Membership in the grouped rows: exactly the pairs of an occurring
label with its multiplicity. -/
theorem mem_labelFreqs (ls : List String) (p : String × Nat) :
    p ∈ labelFreqs ls ↔ p.1 ∈ ls ∧ p.2 = ls.count p.1 := by
  constructor
  · intro h
    obtain ⟨L, hL, hLp⟩ := List.mem_map.mp h
    rw [← hLp]
    exact ⟨List.mem_dedup.mp hL, rfl⟩
  · intro hp
    obtain ⟨a, b⟩ := p
    obtain ⟨h1, h2⟩ := hp
    simp only at h1 h2
    subst h2
    exact List.mem_map.mpr ⟨a, List.mem_dedup.mpr h1, rfl⟩

theorem labelFreqs_ne_nil (ls : List String) (hne : ls ≠ []) :
    labelFreqs ls ≠ [] := by
  obtain ⟨L, rest, hls⟩ := List.exists_cons_of_ne_nil hne
  intro habs
  have hmem : (L, ls.count L) ∈ labelFreqs ls :=
    (mem_labelFreqs ls (L, ls.count L)).mpr ⟨by rw [hls]; simp, rfl⟩
  rw [habs] at hmem
  exact absurd hmem (List.not_mem_nil _)

/-- The state on which claim C6 fails: the single cell of single_select
column 1 selects option 2 (label "B") by id, but the stored text "2" also
equals option 9's label, so the legacy join counts both options, ties
them, and the lexicographically smaller label "2" — never selected — wins
over the claim's answer "B". -/
def stC6Bad : DBState :=
  ⟨[⟨1, "Dept", .single_select, 1, true⟩],
    [⟨2, 1, "B", 1, true⟩, ⟨9, 1, "2", 2, true⟩],
    [⟨1, 1, true⟩],
    [⟨1, 1, none, none, none, some "2"⟩], []⟩

/-- Claim C6 is false on the code: on stC6Bad the route answers
most_frequent "2" where the spec's reading (option identity by id within
the column) answers "B". -/
theorem claim6_counterexample :
    singleSelectSummary stC6Bad 1 = some ("2", 1)
    ∧ claimSingleSelectSummary stC6Bad 1 = some ("B", 1)
    ∧ ("2" : String) ≠ "B" := by
  refine ⟨?_, ?_, ?_⟩ <;> decide

/-- Claim C6 amended: the single-choice summary is computed over the
legacy-join occurrences — each cell of the column contributes one count to
every active option, of any column, whose label or id-as-text equals the
stored value.  Over those counts the returned label has the maximal count
with ties broken by the lexicographically smallest label (so the returned
label can be one that no cell actually references by id), the returned
count is that label's count, and a column with no join rows has an absent
summary. -/
theorem claim6_amended (s : DBState) (colId : Nat) :
    (legacyLabels s colId = [] → singleSelectSummary s colId = none)
    ∧ (legacyLabels s colId ≠ [] →
        ∃ L m, singleSelectSummary s colId = some (L, m)
          ∧ L ∈ legacyLabels s colId
          ∧ m = (legacyLabels s colId).count L
          ∧ (∀ L2 ∈ legacyLabels s colId,
              (legacyLabels s colId).count L2 ≤ m)
          ∧ (∀ L2 ∈ legacyLabels s colId,
              (legacyLabels s colId).count L2 = m → strLt L2 L = false)) := by
  constructor
  · intro h
    rw [singleSelectSummary, h]
    rfl
  · intro hne
    obtain ⟨r, hr, hmem, hall⟩ :=
      pickBest_some (labelFreqs (legacyLabels s colId))
        (labelFreqs_ne_nil _ hne)
    obtain ⟨hL, hm⟩ := (mem_labelFreqs _ r).mp hmem
    refine ⟨r.1, r.2, ?_, hL, hm, ?_, ?_⟩
    · rw [singleSelectSummary, hr]
    · intro L2 hL2
      have hp2 : (L2, (legacyLabels s colId).count L2)
          ∈ labelFreqs (legacyLabels s colId) :=
        (mem_labelFreqs _ _).mpr ⟨hL2, rfl⟩
      have hnb := hall _ hp2
      simp only [Better, not_or, not_and, not_lt, Bool.not_eq_true] at hnb
      exact hnb.1
    · intro L2 hL2 hcnt
      have hp2 : (L2, (legacyLabels s colId).count L2)
          ∈ labelFreqs (legacyLabels s colId) :=
        (mem_labelFreqs _ _).mpr ⟨hL2, rfl⟩
      have hnb := hall _ hp2
      simp only [Better, not_or, not_and, not_lt, Bool.not_eq_true] at hnb
      exact hnb.2 hcnt.symm

/-- Instantiation of claim C6's amendment on stC6Bad. -/
theorem claim6_amended_witness :
    legacyLabels stC6Bad 1 ≠ []
    ∧ (∃ L m, singleSelectSummary stC6Bad 1 = some (L, m)
        ∧ L ∈ legacyLabels stC6Bad 1
        ∧ m = (legacyLabels stC6Bad 1).count L
        ∧ (∀ L2 ∈ legacyLabels stC6Bad 1,
            (legacyLabels stC6Bad 1).count L2 ≤ m)
        ∧ (∀ L2 ∈ legacyLabels stC6Bad 1,
            (legacyLabels stC6Bad 1).count L2 = m → strLt L2 L = false)) :=
  ⟨by decide, (claim6_amended stC6Bad 1).2 (by decide)⟩

/-! ## Claim C7 -/

theorem foldl_max_init (ps : List (String × Nat)) :
    ∀ a : Nat, ps.foldl (fun acc p => max acc p.2) a
      = max a (maxFreq ps) := by
  induction ps with
  | nil =>
    intro a
    simp [maxFreq]
  | cons p ps ih =>
    intro a
    have h2 : maxFreq (p :: ps) = max p.2 (maxFreq ps) := by
      simp only [maxFreq, List.foldl_cons]
      rw [ih, ih, Nat.zero_max, Nat.zero_max]
    simp only [List.foldl_cons]
    rw [ih, h2, max_assoc]

theorem maxFreq_cons (p : String × Nat) (ps : List (String × Nat)) :
    maxFreq (p :: ps) = max p.2 (maxFreq ps) := by
  simp only [maxFreq, List.foldl_cons]
  rw [foldl_max_init, foldl_max_init, Nat.zero_max, Nat.zero_max]

theorem le_maxFreq (ps : List (String × Nat)) (p : String × Nat)
    (hp : p ∈ ps) : p.2 ≤ maxFreq ps := by
  induction ps with
  | nil => exact absurd hp (List.not_mem_nil _)
  | cons q ps ih =>
    rw [maxFreq_cons]
    rcases List.mem_cons.mp hp with h | h
    · rw [h]; exact le_max_left _ _
    · exact le_trans (ih h) (le_max_right _ _)

theorem maxFreq_mem (ps : List (String × Nat)) (hne : ps ≠ []) :
    ∃ p ∈ ps, p.2 = maxFreq ps := by
  induction ps with
  | nil => exact absurd rfl hne
  | cons q ps ih =>
    rw [maxFreq_cons]
    rcases hps : ps with _ | ⟨r, rest⟩
    · refine ⟨q, List.mem_cons_self q [], ?_⟩
      simp [maxFreq]
    · rw [← hps]
      have hne2 : ps ≠ [] := by rw [hps]; simp
      obtain ⟨p, hpmem, hpmax⟩ := ih hne2
      by_cases hcmp : maxFreq ps ≤ q.2
      · exact ⟨q, List.mem_cons_self q ps, (max_eq_left hcmp).symm⟩
      · refine ⟨p, List.mem_cons_of_mem q hpmem, ?_⟩
        rw [max_eq_right (le_of_not_le hcmp), hpmax]

theorem length_flatMap_singletons {α β : Type} (l : List α)
    (f : α → List β) (h : ∀ a ∈ l, (f a).length = 1) :
    (l.flatMap f).length = l.length := by
  induction l with
  | nil => rfl
  | cons a l ih =>
    rw [List.flatMap_cons, List.length_append, List.length_cons,
      h a (List.mem_cons_self a l),
      ih (fun a2 ha2 => h a2 (List.mem_cons_of_mem a ha2))]
    omega

/-- Claim C7: the multi-choice summary returns ALL labels tied for the
maximal per-label selection count together with that count, and an empty
column reads absent.  The hypothesis is the reachable-state invariant that
every stored selection references exactly one active option (the write
path validates activity and ownership, option ids are unique, and no route
ever deactivates an option), so each selection contributes exactly one
label occurrence. -/
theorem claim7_all_tied_labels (s : DBState) (colId : Nat)
    (hopt : ∀ m ∈ msSel s colId,
      (s.options.filter (fun o => o.is_active && o.id == m.option_id)).length
        = 1) :
    (msSel s colId = [] → multiSelectSummary s colId = none)
    ∧ (msLabels s colId).length = (msSel s colId).length
    ∧ (msSel s colId ≠ [] →
        ∃ lbls m, multiSelectSummary s colId = some (lbls, m)
          ∧ lbls ≠ []
          ∧ (∀ L, L ∈ lbls ↔
              L ∈ msLabels s colId ∧ (msLabels s colId).count L = m)
          ∧ (∀ L ∈ msLabels s colId, (msLabels s colId).count L ≤ m)) := by
  have hlen : (msLabels s colId).length = (msSel s colId).length :=
    length_flatMap_singletons (msSel s colId) _
      (fun m hm => by rw [List.length_map]; exact hopt m hm)
  refine ⟨?_, hlen, ?_⟩
  · intro h
    rw [multiSelectSummary]
    have : msLabels s colId = [] := by rw [msLabels, h]; rfl
    rw [this]
    rfl
  · intro hne
    have hlne : msLabels s colId ≠ [] := by
      intro habs
      rw [habs] at hlen
      exact hne (List.eq_nil_of_length_eq_zero hlen.symm)
    have hfne : labelFreqs (msLabels s colId) ≠ [] :=
      labelFreqs_ne_nil _ hlne
    rw [multiSelectSummary]
    rw [if_neg (by simpa using hlne)]
    refine ⟨_, maxFreq (labelFreqs (msLabels s colId)), rfl, ?_, ?_, ?_⟩
    · obtain ⟨p, hpmem, hpmax⟩ := maxFreq_mem _ hfne
      intro habs
      have : p ∈ (labelFreqs (msLabels s colId)).filter
          (fun p => p.2 == maxFreq (labelFreqs (msLabels s colId))) := by
        rw [List.mem_filter]
        exact ⟨hpmem, by simpa using hpmax⟩
      have hmem2 : p.1 ∈ ((labelFreqs (msLabels s colId)).filter
          (fun p => p.2 == maxFreq (labelFreqs (msLabels s colId)))).map
            (fun p : String × Nat => p.1) :=
        List.mem_map.mpr ⟨p, this, rfl⟩
      rw [habs] at hmem2
      exact absurd hmem2 (List.not_mem_nil _)
    · intro L
      constructor
      · intro hL
        obtain ⟨p, hpf, hp1⟩ := List.mem_map.mp hL
        obtain ⟨hpmem, hpmax⟩ := List.mem_filter.mp hpf
        obtain ⟨hLin, hcnt⟩ := (mem_labelFreqs _ p).mp hpmem
        have hpm : p.2 = maxFreq (labelFreqs (msLabels s colId)) := by
          simpa using hpmax
        rw [← hp1]
        exact ⟨hLin, by rw [← hcnt, hpm]⟩
      · rintro ⟨hLin, hcnt⟩
        refine List.mem_map.mpr
          ⟨(L, (msLabels s colId).count L), ?_, rfl⟩
        rw [List.mem_filter]
        refine ⟨(mem_labelFreqs (msLabels s colId)
          (L, (msLabels s colId).count L)).mpr ⟨hLin, rfl⟩, ?_⟩
        simpa using hcnt
    · intro L hL
      exact le_maxFreq _ (L, (msLabels s colId).count L)
        ((mem_labelFreqs (msLabels s colId)
          (L, (msLabels s colId).count L)).mpr ⟨hL, rfl⟩)

/-- The spec's concrete multi-choice tie scenario: skills column 5 with
options JS, Python, React; JS and Python selected three times each, React
once. -/
def stC7 : DBState :=
  ⟨[⟨5, "Skills", .multi_select, 1, true⟩],
    [⟨1, 5, "JS", 1, true⟩, ⟨2, 5, "Python", 2, true⟩,
      ⟨3, 5, "React", 3, true⟩],
    [⟨1, 1, true⟩, ⟨2, 2, true⟩, ⟨3, 3, true⟩],
    [],
    [⟨1, 5, 1⟩, ⟨1, 5, 2⟩, ⟨1, 5, 3⟩, ⟨2, 5, 1⟩, ⟨2, 5, 2⟩,
      ⟨3, 5, 1⟩, ⟨3, 5, 2⟩]⟩

/-- Instantiation of claim C7 on the spec's tie example: both tied labels
are returned with count 3. -/
theorem claim7_witness :
    (∀ m ∈ msSel stC7 5,
      (stC7.options.filter
        (fun o => o.is_active && o.id == m.option_id)).length = 1)
    ∧ multiSelectSummary stC7 5 = some (["JS", "Python"], 3)
    ∧ (msSel stC7 5 ≠ [] →
        ∃ lbls m, multiSelectSummary stC7 5 = some (lbls, m)
          ∧ lbls ≠ []
          ∧ (∀ L, L ∈ lbls ↔
              L ∈ msLabels stC7 5 ∧ (msLabels stC7 5).count L = m)
          ∧ (∀ L ∈ msLabels stC7 5, (msLabels stC7 5).count L ≤ m)) :=
  ⟨by decide, by decide,
    (claim7_all_tied_labels stC7 5 (by decide)).2.2⟩

/-! ## Claim C5 -/

/-- The state on which claim C5's tie-break fails: datetime column 7 holds
the instants 10 and -10, both at distance 10 from the evaluation time 0. -/
def stC5 : DBState :=
  ⟨[⟨7, "When", .datetime, 1, true⟩], [],
    [⟨1, 1, true⟩, ⟨2, 2, true⟩],
    [⟨1, 7, none, none, some 10, none⟩, ⟨2, 7, none, none, some (-10), none⟩],
    []⟩

/-- Claim C5 is false on the code: the datetime query orders only by
absolute distance with no secondary key, so on stC5 the later tied value
10 is a legal answer, while the claim's earliest-on-tie rule demands
-10. -/
theorem claim5_counterexample :
    PossibleDTSummary stC5 7 0 10
    ∧ claimDatetimeSummary (dtVals stC5 7) 0 = some (-10)
    ∧ (10 : Int) ≠ -10 := by
  refine ⟨⟨[10, -10], ?_, ?_, rfl⟩, by decide, by decide⟩
  · decide
  · decide

/-- Claim C5 amended: the datetime summary is SOME stored value whose
absolute distance to the evaluation time is minimal — which of several
tied values is returned is not determined (no tie-break is coded) — and a
column with no datetime cells has an absent summary. -/
theorem claim5_amended (s : DBState) (colId : Nat) (now : Int) :
    (∀ r, PossibleDTSummary s colId now r →
        r ∈ dtVals s colId ∧ ∀ v ∈ dtVals s colId, dtDist now r ≤ dtDist now v)
    ∧ (dtVals s colId ≠ [] → ∃ r, PossibleDTSummary s colId now r)
    ∧ (dtVals s colId = [] → ∀ r, ¬ PossibleDTSummary s colId now r) := by
  refine ⟨?_, ?_, ?_⟩
  · intro r hr
    obtain ⟨l, hperm, hsort, hhead⟩ := hr
    cases l with
    | nil => exact absurd hhead (by simp)
    | cons a tl =>
      have har : a = r := by simpa using hhead
      subst har
      constructor
      · exact hperm.mem_iff.mp (List.mem_cons_self a tl)
      · intro v hv
        rcases List.mem_cons.mp (hperm.mem_iff.mpr hv) with h | h
        · rw [h]
        · exact List.rel_of_sorted_cons hsort v h
  · intro hne
    haveI : IsTotal Int (fun a b => dtDist now a ≤ dtDist now b) :=
      ⟨fun a b => Nat.le_total _ _⟩
    haveI : IsTrans Int (fun a b => dtDist now a ≤ dtDist now b) :=
      ⟨fun a b c h1 h2 => le_trans h1 h2⟩
    set l := (dtVals s colId).insertionSort
      (fun a b => dtDist now a ≤ dtDist now b) with hl
    have hperm : l.Perm (dtVals s colId) := List.perm_insertionSort _ _
    have hsort : l.Sorted (fun a b => dtDist now a ≤ dtDist now b) :=
      List.sorted_insertionSort _ _
    cases hl2 : l with
    | nil =>
      rw [hl2] at hperm
      exact absurd (hperm.nil_eq).symm hne
    | cons a tl =>
      exact ⟨a, l, hperm, hsort, by rw [hl2]; rfl⟩
  · intro hnil r hposs
    obtain ⟨l, hperm, hsort, hhead⟩ := hposs
    rw [hnil] at hperm
    rw [hperm.eq_nil] at hhead
    exact absurd hhead (by simp)

/-- Instantiation of claim C5's amendment on stC5: 10 is a possible
answer and it is of minimal distance. -/
theorem claim5_amended_witness :
    PossibleDTSummary stC5 7 0 10
    ∧ (10 ∈ dtVals stC5 7 ∧ ∀ v ∈ dtVals stC5 7, dtDist 0 10 ≤ dtDist 0 v) := by
  have hposs : PossibleDTSummary stC5 7 0 10 :=
    ⟨[10, -10], by decide, by decide, rfl⟩
  exact ⟨hposs, (claim5_amended stC5 7 0).1 10 hposs⟩

/-! ## Claim C2 -/

theorem cellTypeOk_commit (s : DBState) (r c : Nat) (vw : ValidatedWrite)
    (cv : CellRow) :
    cellTypeOk (commitWrite s r c vw) cv = cellTypeOk s cv := by
  rw [cellTypeOk, cellTypeOk, commitWrite_columns]

theorem msTypeOk_commit (s : DBState) (r c : Nat) (vw : ValidatedWrite)
    (m : MSRow) :
    msTypeOk (commitWrite s r c vw) m = msTypeOk s m := by
  rw [msTypeOk, msTypeOk, commitWrite_columns]

theorem scalarCell_fields (r c : Nat) (vw : ValidatedWrite) (cv0 : CellRow)
    (h : scalarCell r c vw = some cv0) :
    cv0.row_id = r ∧ cv0.column_id = c := by
  cases vw <;> simp [scalarCell] at h <;> rw [← h] <;> exact ⟨rfl, rfl⟩

/-- The column type a validated value is for. -/
def vwType : ValidatedWrite → ColumnType
  | .text _ => .text
  | .number _ => .number
  | .datetime _ => .datetime
  | .singleSelect _ => .single_select
  | .multiSelect _ => .multi_select

/-- The commit phase keeps the cell-store invariant, given that the
validation found an active column of the written type. -/
theorem commit_preserves_cellInv (s : DBState) (r c : Nat)
    (vw : ValidatedWrite) (col : ColumnMeta)
    (hfind : s.columns.find? (fun c2 => c2.id == c && c2.is_active) = some col)
    (hvt : col.column_type = vwType vw)
    (h : CellInv s) : CellInv (commitWrite s r c vw) := by
  obtain ⟨hnd, hcells, hms⟩ := h
  have hcolmem : col ∈ s.columns := List.mem_of_find?_eq_some hfind
  have hcolid : col.id = c := by
    have := List.find?_some hfind
    simp only [Bool.and_eq_true, beq_iff_eq] at this
    exact this.1
  have hF : (((s.cells.filter
      (fun cv => !(cv.row_id == r && cv.column_id == c))).map
        (fun cv => (cv.row_id, cv.column_id)))).Nodup :=
    hnd.sublist (List.Sublist.map _ (List.filter_sublist _))
  have hFne : ∀ q ∈ (s.cells.filter
      (fun cv => !(cv.row_id == r && cv.column_id == c))).map
        (fun cv => (cv.row_id, cv.column_id)), q ≠ (r, c) := by
    intro q hq habs
    obtain ⟨cv, hcvF, hcvq⟩ := List.mem_map.mp hq
    obtain ⟨hmem2, hpred⟩ := List.mem_filter.mp hcvF
    rw [habs] at hcvq
    have h1 : cv.row_id = r := congrArg Prod.fst hcvq
    have h2 : cv.column_id = c := congrArg Prod.snd hcvq
    rw [h1, h2] at hpred
    simp at hpred
  refine ⟨?_, ?_, ?_⟩
  · rw [commitWrite_cells, List.map_append]
    rcases hsc : scalarCell r c vw with _ | cv0
    · simpa using hF
    · obtain ⟨hr0, hc0⟩ := scalarCell_fields r c vw cv0 hsc
      rw [List.nodup_append]
      refine ⟨hF, by simp, ?_⟩
      intro q hq
      have := hFne q hq
      simp only [Option.toList_some, List.map_cons, List.map_nil]
      intro habs
      rw [List.mem_singleton] at habs
      rw [habs, hr0, hc0] at this
      exact this rfl
  · intro cv hcv
    rw [cellTypeOk_commit]
    rw [commitWrite_cells] at hcv
    rcases List.mem_append.mp hcv with hmem | hmem
    · exact hcells cv (List.mem_filter.mp hmem).1
    · cases vw with
      | text t =>
        have hcveq : cv = ⟨r, c, some t, none, none, none⟩ := by
          simpa [scalarCell] using hmem
        subst hcveq
        rw [cellTypeOk]
        exact List.any_eq_true.mpr
          ⟨col, hcolmem, by simp [hcolid, hvt, vwType, cellSlotOk]⟩
      | number n =>
        have hcveq : cv = ⟨r, c, none, some n, none, none⟩ := by
          simpa [scalarCell] using hmem
        subst hcveq
        rw [cellTypeOk]
        exact List.any_eq_true.mpr
          ⟨col, hcolmem, by simp [hcolid, hvt, vwType, cellSlotOk]⟩
      | datetime inst =>
        have hcveq : cv = ⟨r, c, none, none, some inst, none⟩ := by
          simpa [scalarCell] using hmem
        subst hcveq
        rw [cellTypeOk]
        exact List.any_eq_true.mpr
          ⟨col, hcolmem, by simp [hcolid, hvt, vwType, cellSlotOk]⟩
      | singleSelect optId =>
        have hcveq : cv = ⟨r, c, none, none, none, some (toString optId)⟩ := by
          simpa [scalarCell] using hmem
        subst hcveq
        rw [cellTypeOk]
        exact List.any_eq_true.mpr
          ⟨col, hcolmem, by simp [hcolid, hvt, vwType, cellSlotOk]⟩
      | multiSelect ids =>
        simp [scalarCell] at hmem
  · intro m hm
    rw [msTypeOk_commit]
    rw [commitWrite_multi] at hm
    rcases List.mem_append.mp hm with hmem | hmem
    · exact hms m (List.mem_filter.mp hmem).1
    · cases vw with
      | text t => simp [msInserted] at hmem
      | number n => simp [msInserted] at hmem
      | datetime inst => simp [msInserted] at hmem
      | singleSelect optId => simp [msInserted] at hmem
      | multiSelect ids =>
        obtain ⟨i, hi, hmi⟩ := List.mem_map.mp hmem
        rw [msTypeOk]
        apply List.any_eq_true.mpr
        refine ⟨col, hcolmem, ?_⟩
        rw [← hmi]
        simp [hcolid, hvt, vwType]

/-- One PATCH /api/cell request keeps the invariant (a rejected request
commits nothing). -/
theorem cellInv_applyWrite (dp : String → Option Int) (s : DBState)
    (req : WriteReq) (h : CellInv s) : CellInv (applyWrite dp s req) := by
  obtain ⟨rid, cid, dt, v⟩ := req
  rw [applyWrite]
  rcases hval : validateWrite dp s rid cid dt v with e | vw
  · rw [writeCell, hval]
    exact h
  · rw [writeCell, hval]
    obtain ⟨⟨col, hfind, htype⟩, hshape⟩ :=
      validateWrite_ok_shape dp s rid cid dt v vw hval
    have hvt : col.column_type = vwType vw := by
      cases dt with
      | text =>
        obtain ⟨t, _, hvw⟩ := hshape
        rw [hvw]; exact htype
      | number =>
        obtain ⟨n, _, hvw⟩ := hshape
        rw [hvw]; exact htype
      | datetime =>
        obtain ⟨t, inst, _, _, hvw⟩ := hshape
        rw [hvw]; exact htype
      | single_select =>
        obtain ⟨o, _, _, hvw⟩ := hshape
        rw [hvw]; exact htype
      | multi_select =>
        obtain ⟨ids, _, hvw⟩ := hshape
        rw [hvw]; exact htype
    exact commit_preserves_cellInv s rid cid vw col hfind hvt h

theorem cellInv_applyWrites (dp : String → Option Int)
    (reqs : List WriteReq) :
    ∀ s : DBState, CellInv s → CellInv (applyWrites dp reqs s) := by
  induction reqs with
  | nil => intro s h; exact h
  | cons req reqs ih =>
    intro s h
    rw [applyWrites, List.foldl_cons]
    exact ih _ (cellInv_applyWrite dp s req h)

/-- A successful write fully replaces the pair's stored content: the rows
that survive for (row, column) are exactly the newly validated value,
nothing of the previous value remains. -/
theorem writeCell_full_replace (dp : String → Option Int) (s : DBState)
    (r c : Nat) (dt : ColumnType) (v : JSValue) (s1 : DBState)
    (hok : writeCell dp s r c dt v = .ok s1) :
    ∃ vw, validateWrite dp s r c dt v = .ok vw
      ∧ s1.cells.filter (fun cv => cv.row_id == r && cv.column_id == c)
          = (scalarCell r c vw).toList
      ∧ s1.multi.filter (fun m => m.row_id == r && m.column_id == c)
          = msInserted r c vw := by
  rcases hval : validateWrite dp s r c dt v with e | vw
  · rw [writeCell, hval] at hok
    exact Except.noConfusion hok
  rw [writeCell, hval] at hok
  have hs1 : s1 = commitWrite s r c vw := (Except.ok.inj hok).symm
  subst hs1
  refine ⟨vw, rfl, ?_, ?_⟩
  · rw [commitWrite_cells, List.filter_append]
    have h1 : (s.cells.filter
        (fun cv => !(cv.row_id == r && cv.column_id == c))).filter
          (fun cv => cv.row_id == r && cv.column_id == c) = [] := by
      rw [List.filter_eq_nil_iff]
      intro cv hcv habs
      have := (List.mem_filter.mp hcv).2
      rw [habs] at this
      exact absurd this (by simp)
    have h2 : (scalarCell r c vw).toList.filter
        (fun cv => cv.row_id == r && cv.column_id == c)
          = (scalarCell r c vw).toList := by
      rcases hsc : scalarCell r c vw with _ | cv0
      · rfl
      · obtain ⟨hr0, hc0⟩ := scalarCell_fields r c vw cv0 hsc
        simp [hr0, hc0]
    rw [h1, h2, List.nil_append]
  · rw [commitWrite_multi, List.filter_append]
    have h1 : (s.multi.filter
        (fun m => !(m.row_id == r && m.column_id == c))).filter
          (fun m => m.row_id == r && m.column_id == c) = [] := by
      rw [List.filter_eq_nil_iff]
      intro m hm habs
      have := (List.mem_filter.mp hm).2
      rw [habs] at this
      exact absurd this (by simp)
    have h2 : (msInserted r c vw).filter
        (fun m => m.row_id == r && m.column_id == c)
          = msInserted r c vw := by
      apply List.filter_eq_self.mpr
      intro m hm
      cases vw with
      | text t => simp [msInserted] at hm
      | number n => simp [msInserted] at hm
      | datetime inst => simp [msInserted] at hm
      | singleSelect optId => simp [msInserted] at hm
      | multiSelect ids =>
        obtain ⟨i, hi, hmi⟩ := List.mem_map.mp hm
        rw [← hmi]
        simp
    rw [h1, h2, List.nil_append]

/-- Claim C2: from any state satisfying the cell-store invariant, every
sequence of PATCH /api/cell requests preserves it — at most one
cell_values row per (row, column), each populated slot matching its
column's declared type, selection rows only under multi_select columns —
and every individual successful write is a full replacement: the rows
stored for the pair afterwards are exactly the new validated value. -/
theorem claim2_unique_typed_replace (dp : String → Option Int) (s : DBState)
    (h : CellInv s) :
    (∀ reqs : List WriteReq, CellInv (applyWrites dp reqs s))
    ∧ (∀ r c dt v s1, writeCell dp s r c dt v = .ok s1 →
        ∃ vw, validateWrite dp s r c dt v = .ok vw
          ∧ s1.cells.filter (fun cv => cv.row_id == r && cv.column_id == c)
              = (scalarCell r c vw).toList
          ∧ s1.multi.filter (fun m => m.row_id == r && m.column_id == c)
              = msInserted r c vw) :=
  ⟨fun reqs => cellInv_applyWrites dp reqs s h,
    fun r c dt v s1 hok => writeCell_full_replace dp s r c dt v s1 hok⟩

/-- Instantiation of claim C2 on stC9: the invariant holds, survives a
two-request sequence, and the text write fully replaces the pair. -/
theorem claim2_witness :
    CellInv stC9
    ∧ CellInv (applyWrites dpNone
        [⟨1, 3, .text, .str "x"⟩, ⟨1, 5, .multi_select, .arr [1]⟩] stC9)
    ∧ (∃ vw, validateWrite dpNone stC9 1 3 .text (.str "hi") = .ok vw
        ∧ stC9a.cells.filter (fun cv => cv.row_id == 1 && cv.column_id == 3)
            = (scalarCell 1 3 vw).toList
        ∧ stC9a.multi.filter (fun m => m.row_id == 1 && m.column_id == 3)
            = msInserted 1 3 vw) := by
  have h : CellInv stC9 := by decide
  exact ⟨h, (claim2_unique_typed_replace dpNone stC9 h).1 _,
    (claim2_unique_typed_replace dpNone stC9 h).2 1 3 .text (.str "hi") stC9a
      rfl⟩

/-! ## Claim C1 -/

theorem le_foldr_max (l : List Nat) (x : Nat) (hx : x ∈ l) :
    x ≤ l.foldr (fun a b => max a b) 0 := by
  induction l with
  | nil => exact absurd hx (List.not_mem_nil _)
  | cons a l ih =>
    rw [List.foldr_cons]
    rcases List.mem_cons.mp hx with h | h
    · rw [h]; exact le_max_left _ _
    · exact le_trans (ih h) (le_max_right _ _)

theorem freshRowId_not_mem (s : DBState) :
    freshRowId s ∉ s.rows.map (·.id) := by
  intro h
  have := le_foldr_max _ _ h
  rw [freshRowId] at this
  omega

theorem rowIds_insert (s : DBState) :
    (insertRowAtTop s).rows.map (·.id)
      = s.rows.map (·.id) ++ [freshRowId s] := by
  rw [insertRowAtTop]
  simp only [List.map_append, List.map_map, List.map_cons, List.map_nil]
  rfl

theorem activeNums_insert (s : DBState) :
    activeNums (insertRowAtTop s) = (activeNums s).map (· + 1) ++ [1] := by
  rw [activeNums, activeNums, insertRowAtTop]
  simp only [List.filter_append, List.map_append]
  congr 1
  rw [List.filter_map, List.map_map, List.map_map]
  rfl

theorem dense_insert (l : List Nat) (h : l.Perm (List.range' 1 l.length)) :
    (l.map (· + 1) ++ [1]).Perm (List.range' 1 (l.length + 1)) := by
  have h2 : (List.range' 1 l.length).map (· + 1) = List.range' 2 l.length := by
    have h3 := List.map_add_range' 1 1 l.length 1
    rw [← h3]
    exact List.map_congr_left (fun x hx => Nat.add_comm x 1)
  have h4 : (l.map (· + 1)).Perm (List.range' 2 l.length) := by
    rw [← h2]
    exact h.map _
  have h5 : (l.map (· + 1) ++ [1]).Perm (1 :: l.map (· + 1)) :=
    List.perm_append_comm
  have h6 : List.range' 1 (l.length + 1) = 1 :: List.range' 2 l.length :=
    List.range'_succ 1 l.length 1
  rw [h6]
  exact h5.trans (h4.cons 1)

/-- POST /api/rows keeps the row invariant: the fresh id stays unique and
the active positions stay exactly 1..N+1. -/
theorem rowInv_insert (s : DBState) (h : RowInv s) :
    RowInv (insertRowAtTop s) := by
  obtain ⟨hid, hd⟩ := h
  constructor
  · rw [rowIds_insert, List.nodup_append]
    refine ⟨hid, by simp, ?_⟩
    intro a ha hmem
    rw [List.mem_singleton] at hmem
    rw [hmem] at ha
    exact freshRowId_not_mem s ha
  · rw [DensePositions, activeNums_insert]
    have hlen : ((activeNums s).map (· + 1) ++ [1]).length
        = (activeNums s).length + 1 := by
      simp
    rw [posRange, hlen]
    exact dense_insert (activeNums s) hd

theorem map_sub_one_range' (m : Nat) :
    ∀ p : Nat, (List.range' (p + 1) m).map (fun x => x - 1)
      = List.range' p m := by
  induction m with
  | zero => intro p; rfl
  | succ m ih =>
    intro p
    rw [List.range'_succ, List.map_cons, List.range'_succ]
    rw [Nat.add_sub_cancel]
    congr 1
    exact ih (p + 1)

/-- Removing position p from 1..n and closing the gap yields exactly
1..n-1, whatever order the survivors are in. -/
theorem adj_erase_perm (X : List Nat) (p n : Nat)
    (hperm : (p :: X).Perm (List.range' 1 n)) :
    (X.map (fun x => if p < x then x - 1 else x)).Perm
      (List.range' 1 (n - 1)) := by
  have hp : p ∈ List.range' 1 n := hperm.mem_iff.mp (List.mem_cons_self p X)
  have hpb := (List.mem_range'_1).mp hp
  have hX : X.Perm ((List.range' 1 n).erase p) :=
    (List.cons_perm_iff_perm_erase.mp hperm).2
  have hr1 : List.range' p (n - p + 1) = p :: List.range' (p + 1) (n - p) :=
    List.range'_succ p (n - p) 1
  have hsplit : List.range' 1 n
      = List.range' 1 (p - 1) ++ (p :: List.range' (p + 1) (n - p)) := by
    have happ := List.range'_append 1 (p - 1) (n - p + 1) 1
    have e1 : 1 + 1 * (p - 1) = p := by omega
    have e2 : (n - p + 1) + (p - 1) = n := by omega
    rw [e1, e2] at happ
    rw [← happ, hr1]
  have hpA : p ∉ List.range' 1 (p - 1) := by
    intro hmem
    have := (List.mem_range'_1).mp hmem
    omega
  have herase : (List.range' 1 n).erase p
      = List.range' 1 (p - 1) ++ List.range' (p + 1) (n - p) := by
    rw [hsplit, List.erase_append_right _ hpA, List.erase_cons_head]
  have hmapped : ((List.range' 1 (p - 1) ++ List.range' (p + 1) (n - p)).map
      (fun x => if p < x then x - 1 else x)) = List.range' 1 (n - 1) := by
    rw [List.map_append]
    have hA : (List.range' 1 (p - 1)).map
        (fun x => if p < x then x - 1 else x) = List.range' 1 (p - 1) := by
      have hcongr : ∀ x ∈ List.range' 1 (p - 1),
          (if p < x then x - 1 else x) = id x := by
        intro x hx
        have := (List.mem_range'_1).mp hx
        rw [if_neg (by omega)]
        rfl
      rw [List.map_congr_left hcongr, List.map_id]
    have hB : (List.range' (p + 1) (n - p)).map
        (fun x => if p < x then x - 1 else x) = List.range' p (n - p) := by
      have hcongr : ∀ x ∈ List.range' (p + 1) (n - p),
          (if p < x then x - 1 else x) = x - 1 := by
        intro x hx
        have := (List.mem_range'_1).mp hx
        rw [if_pos (by omega)]
      rw [List.map_congr_left hcongr, map_sub_one_range']
    rw [hA, hB]
    have happ := List.range'_append 1 (p - 1) (n - p) 1
    have e1 : 1 + 1 * (p - 1) = p := by omega
    have e2 : (n - p) + (p - 1) = n - 1 := by omega
    rw [e1, e2] at happ
    exact happ
  have hfin : ((List.range' 1 n).erase p).map
      (fun x => if p < x then x - 1 else x) = List.range' 1 (n - 1) := by
    rw [herase, hmapped]
  exact (hX.map _).trans (hfin ▸ List.Perm.refl _)

/-- DELETE /api/rows/:id keeps the row invariant: ids are untouched, the
deleted active position p disappears, and positions above p shift down by
one, re-densifying 1..N-1. -/
theorem rowInv_delete (s : DBState) (rid : Nat) (h : RowInv s) :
    RowInv ((deleteRow s rid).getD s) := by
  obtain ⟨hid, hd⟩ := h
  rcases hfind : s.rows.find? (fun r => r.id == rid && r.is_active)
      with _ | r0
  · have hgoal : (deleteRow s rid).getD s = s := by
      rw [deleteRow, hfind]
      rfl
    rw [hgoal]
    exact ⟨hid, hd⟩
  have hgoal : (deleteRow s rid).getD s = { s with
      cells := s.cells.filter (fun cv => !(cv.row_id == rid)),
      multi := s.multi.filter (fun m => !(m.row_id == rid)),
      rows := (s.rows.map (fun r =>
          if r.id == rid then { r with is_active := false } else r)).map
        (fun r => if r.is_active && r0.row_number < r.row_number then
          { r with row_number := r.row_number - 1 } else r) } := by
    rw [deleteRow, hfind]
    rfl
  rw [hgoal]
  have hr0mem : r0 ∈ s.rows := List.mem_of_find?_eq_some hfind
  have hr0p := List.find?_some hfind
  simp only [Bool.and_eq_true, beq_iff_eq] at hr0p
  obtain ⟨hr0id, hr0act⟩ := hr0p
  have hperm0 : s.rows.Perm (r0 :: s.rows.erase r0) :=
    List.perm_cons_erase hr0mem
  have hne_rest : ∀ r ∈ s.rows.erase r0, r.id ≠ rid := by
    intro r hr habs
    have hids2 : (s.rows.map (·.id)).Perm
        (r0.id :: (s.rows.erase r0).map (·.id)) := by
      simpa using hperm0.map (·.id)
    have hnd2 : (r0.id :: (s.rows.erase r0).map (·.id)).Nodup :=
      hids2.nodup_iff.mp hid
    exact (List.nodup_cons.mp hnd2).1
      (List.mem_map.mpr ⟨r, hr, by rw [habs, hr0id]⟩)
  constructor
  · -- ids unchanged
    have hids : (((s.rows.map (fun r =>
          if r.id == rid then { r with is_active := false } else r)).map
        (fun r => if r.is_active && r0.row_number < r.row_number then
          { r with row_number := r.row_number - 1 } else r)).map (·.id))
        = s.rows.map (·.id) := by
      rw [List.map_map, List.map_map]
      apply List.map_congr_left
      intro r hr
      simp only [Function.comp]
      split <;> split <;> rfl
    rw [hids]
    exact hid
  · -- density
    rw [DensePositions]
    have hrest2 : (s.rows.erase r0).map (fun r =>
        if r.id == rid then { r with is_active := false } else r)
        = s.rows.erase r0 := by
      have hcongr : ∀ r ∈ s.rows.erase r0, (fun r : DataRow =>
          if r.id == rid then { r with is_active := false } else r) r
          = id r := by
        intro r hr
        show (if r.id == rid then { r with is_active := false } else r) = r
        rw [if_neg (by simp [hne_rest r hr])]
      rw [List.map_congr_left hcongr, List.map_id]
    -- the new active positions, up to permutation
    have hstep1 : (activeNums { s with
        cells := s.cells.filter (fun cv => !(cv.row_id == rid)),
        multi := s.multi.filter (fun m => !(m.row_id == rid)),
        rows := (s.rows.map (fun r =>
            if r.id == rid then { r with is_active := false } else r)).map
          (fun r => if r.is_active && r0.row_number < r.row_number then
            { r with row_number := r.row_number - 1 } else r) }).Perm
        ((((s.rows.erase r0).filter (·.is_active)).map (·.row_number)).map
          (fun x => if r0.row_number < x then x - 1 else x)) := by
      rw [activeNums]
      have hmm : ((s.rows.map (fun r =>
            if r.id == rid then { r with is_active := false } else r)).map
          (fun r => if r.is_active && r0.row_number < r.row_number then
            { r with row_number := r.row_number - 1 } else r)).Perm
          (((r0 :: s.rows.erase r0).map (fun r =>
            if r.id == rid then { r with is_active := false } else r)).map
          (fun r => if r.is_active && r0.row_number < r.row_number then
            { r with row_number := r.row_number - 1 } else r)) :=
        (hperm0.map _).map _
      refine ((hmm.filter _).map _).trans ?_
      rw [List.map_map, List.map_cons]
      have hcomp : ((fun r : DataRow =>
          if r.is_active && r0.row_number < r.row_number then
            { r with row_number := r.row_number - 1 } else r)
          ∘ (fun r : DataRow =>
            if r.id == rid then { r with is_active := false } else r)) r0
          = { r0 with is_active := false } := by
        simp [Function.comp, hr0id]
      rw [hcomp]
      rw [List.filter_cons]
      rw [if_neg (by simp)]
      rw [← List.map_map, hrest2]
      have hfg : (((s.rows.erase r0).map (fun r =>
            if r.is_active && r0.row_number < r.row_number then
              { r with row_number := r.row_number - 1 } else r)).filter
          (·.is_active))
          = ((s.rows.erase r0).filter (·.is_active)).map (fun r =>
            if r.is_active && r0.row_number < r.row_number then
              { r with row_number := r.row_number - 1 } else r) := by
        rw [List.filter_map]
        congr 1
        apply List.filter_congr
        intro r hr
        simp only [Function.comp]
        split
        · rfl
        · rfl
      rw [hfg, List.map_map]
      have hnum : ∀ r ∈ (s.rows.erase r0).filter (·.is_active),
          ((fun x : DataRow => x.row_number) ∘ (fun r =>
            if r.is_active && r0.row_number < r.row_number then
              { r with row_number := r.row_number - 1 } else r)) r
          = ((fun x => if r0.row_number < x then x - 1 else x)
              ∘ (fun x : DataRow => x.row_number)) r := by
        intro r hr
        have hract : r.is_active = true := by
          have := (List.mem_filter.mp hr).2
          simpa using this
        simp only [Function.comp, hract, Bool.true_and]
        by_cases hlt : r0.row_number < r.row_number
        · rw [if_pos (by simpa using hlt), if_pos hlt]
        · rw [if_neg (by simpa using hlt), if_neg hlt]
      rw [List.map_congr_left hnum, List.map_map]
    -- the old active positions are the deleted one plus the survivors
    have hstep2 : (activeNums s).Perm
        (r0.row_number ::
          (((s.rows.erase r0).filter (·.is_active)).map (·.row_number))) := by
      rw [activeNums]
      refine ((hperm0.filter _).map _).trans ?_
      rw [List.filter_cons, if_pos (by simpa using hr0act)]
      exact List.Perm.refl _
    have hpx : (r0.row_number ::
        (((s.rows.erase r0).filter (·.is_active)).map (·.row_number))).Perm
        (List.range' 1 (activeNums s).length) :=
      hstep2.symm.trans hd
    have hshift := adj_erase_perm
      (((s.rows.erase r0).filter (·.is_active)).map (·.row_number))
      r0.row_number (activeNums s).length hpx
    have hlenX : (((s.rows.erase r0).filter (·.is_active)).map
        (·.row_number)).length + 1 = (activeNums s).length := by
      have := hpx.length_eq
      simpa using this
    rw [List.length_map] at hlenX
    refine hstep1.trans ?_
    have hlen3 : (activeNums { s with
        cells := s.cells.filter (fun cv => !(cv.row_id == rid)),
        multi := s.multi.filter (fun m => !(m.row_id == rid)),
        rows := (s.rows.map (fun r =>
            if r.id == rid then { r with is_active := false } else r)).map
          (fun r => if r.is_active && r0.row_number < r.row_number then
            { r with row_number := r.row_number - 1 } else r) }).length
        = (activeNums s).length - 1 := by
      rw [hstep1.length_eq, List.length_map, List.length_map]
      omega
    rw [posRange, hlen3]
    exact hshift

/-- Any sequence of row operations keeps the row invariant. -/
theorem rowInv_applyRowOps (ops : List RowOp) :
    ∀ s : DBState, RowInv s → RowInv (applyRowOps ops s) := by
  induction ops with
  | nil => intro s h; exact h
  | cons op ops ih =>
    intro s h
    rw [applyRowOps, List.foldl_cons]
    refine ih (applyRowOp s op) ?_
    cases op with
    | insert => exact rowInv_insert s h
    | delete rid => exact rowInv_delete s rid h

/-- Claim C1: starting from a state whose active rows occupy exactly the
positions 1..N (with primary-key-unique row ids), any sequence of POST
/api/rows and DELETE /api/rows/:id operations leaves the active rows'
row_number values forming exactly 1..N-prime for the new active count —
no gaps, no duplicates, after every prefix of the sequence. -/
theorem claim1_dense_positions (s : DBState) (h : RowInv s)
    (ops : List RowOp) :
    RowInv (applyRowOps ops s)
    ∧ (activeNums (applyRowOps ops s)).Perm
        (posRange (activeNums (applyRowOps ops s)).length) :=
  ⟨rowInv_applyRowOps ops s h, (rowInv_applyRowOps ops s h).2⟩

/-- Instantiation of claim C1: two active rows at positions 1, 2; insert
then delete row id 1 keeps the active positions dense. -/
theorem claim1_witness :
    RowInv (⟨[], [], [⟨1, 1, true⟩, ⟨2, 2, true⟩], [], []⟩ : DBState)
    ∧ (RowInv (applyRowOps [.insert, .delete 1]
          ⟨[], [], [⟨1, 1, true⟩, ⟨2, 2, true⟩], [], []⟩)
        ∧ (activeNums (applyRowOps [.insert, .delete 1]
            ⟨[], [], [⟨1, 1, true⟩, ⟨2, 2, true⟩], [], []⟩)).Perm
          (posRange (activeNums (applyRowOps [.insert, .delete 1]
            ⟨[], [], [⟨1, 1, true⟩, ⟨2, 2, true⟩], [], []⟩)).length)) :=
  ⟨by decide, claim1_dense_positions _ (by decide) [.insert, .delete 1]⟩

end Spreadsheet